import Mathlib

/-!
Verification of the feed aggregator's storage layer and feed loader.

The Rust source is shallowly embedded: SQL tables become lists of row
structures, timestamps become `Int` (seconds), ids become `Nat`
(`create_id()` is modelled by a fresh-id counter), and fallible
statements return `Except`.  Each definition mirrors one function of
`src/backend/src` and is executable.
-/

namespace Rss

/-! ## Data model (db/mod.rs, pg schema) -/

structure FeedRow where
  id : Nat
  source_title : String := ""
  user_title : Option String := none
  feed_url : String
  site_url : Option String := none
  created_at : Int := 0
  updated_at : Option Int := none
  last_synced_at : Option Int := none
  sync_started_at : Option Int := none
  last_sync_result : Option String := none
deriving Repr, DecidableEq

structure EntryRow where
  id : Nat
  feed_id : Nat
  title : String := ""
  url : String := ""
  comments_url : Option String := none
  published_at : Option Int := none
  entry_updated_at : Option Int := none
  read_at : Option Int := none
  starred_at : Option Int := none
  created_at : Int := 0
  updated_at : Option Int := none
deriving Repr, DecidableEq

structure IconRow where
  id : Nat
  hash : String
  data : List Nat := []
  content_type : String := ""
deriving Repr, DecidableEq

structure FeedIconRow where
  feed_id : Nat
  icon_id : Nat
deriving Repr, DecidableEq

/-- The persistent state: the relational tables, the `now()` clock of the
current statement batch, and the source of fresh ids (`create_id()`). -/
structure Db where
  feeds : List FeedRow := []
  entries : List EntryRow := []
  icons : List IconRow := []
  feeds_icons : List FeedIconRow := []
  next_id : Nat := 0
  now : Int := 0
deriving Repr

/-! ## Transport types (db/mod.rs) -/

structure NewEntry where
  title : String := ""
  url : String
  comments_url : Option String := none
  published_at : Option Int := none
  entry_updated_at : Option Int := none
deriving Repr, DecidableEq

structure NewFeed where
  title : String
  site_url : Option String := none
  feed_url : String
deriving Repr, DecidableEq

structure NewIcon where
  hash : String
  data : List Nat := []
  content_type : String := ""
deriving Repr, DecidableEq

structure FeedToSync where
  id : Nat
  feed_url : String
  site_url : Option String
deriving Repr, DecidableEq

def FeedRow.toFeedToSync (f : FeedRow) : FeedToSync :=
  ⟨f.id, f.feed_url, f.site_url⟩

/-! ## get_feeds_to_sync (db/pg/mod.rs lines 569-597)

The SQL updates `sync_started_at = now()` on every row matched by the
eligibility subquery and returns `(id, feed_url, site_url)` of those
rows.  The inner `ORDER BY` and `FOR UPDATE SKIP LOCKED` concern
row-locking between concurrent transactions and are not modelled. -/

/-- `interval \x7b5 minutes\x7d` in seconds. -/
def staleClaimSeconds : Int := 300

/-- The WHERE predicate of the sync-claim subquery, translated clause by
clause (`is distinct from` treats NULL as different from the literal). -/
def feedEligibleToSync (now threshold : Int) (f : FeedRow) : Bool :=
  decide (f.last_sync_result ≠ some ("parse_error")) &&
    ((decide (f.sync_started_at = none) &&
        (match f.last_synced_at with
         | none => true
         | some t => decide (t < threshold))) ||
     (match f.sync_started_at with
      | none => false
      | some s => decide (s < now - staleClaimSeconds)))

def get_feeds_to_sync (db : Db) (last_synced_before : Int) :
    Db × List FeedToSync :=
  let selected := db.feeds.filter (feedEligibleToSync db.now last_synced_before)
  let feeds' := db.feeds.map fun f =>
    if feedEligibleToSync db.now last_synced_before f then
      { f with sync_started_at := some db.now }
    else f
  ({ db with feeds := feeds' }, selected.map FeedRow.toFeedToSync)

/-- Eligibility as the specification words it: not a parse error, and
either unclaimed with `last_synced_at` before the threshold or null, or
holding a claim older than five minutes. -/
def EligibleSpec (now threshold : Int) (f : FeedRow) : Prop :=
  f.last_sync_result ≠ some ("parse_error") ∧
    ((f.sync_started_at = none ∧
        ∀ t, f.last_synced_at = some t → t < threshold) ∨
     (∃ s, f.sync_started_at = some s ∧ s < now - staleClaimSeconds))

theorem feedEligibleToSync_iff (now threshold : Int) (f : FeedRow) :
    feedEligibleToSync now threshold f = true ↔ EligibleSpec now threshold f := by
  unfold feedEligibleToSync EligibleSpec
  cases hs : f.sync_started_at with
  | none =>
    cases ht : f.last_synced_at with
    | none => simp
    | some t => simp
  | some s =>
    cases ht : f.last_synced_at with
    | none => simp
    | some t => simp

/-! ## get_one_feed_to_sync (db/pg/mod.rs lines 617-637)

Manual sync: the row with the given id is claimed with no eligibility
check at all (`where id = $1` is the only condition). -/

def get_one_feed_to_sync (db : Db) (feed_id : Nat) : Db × Option FeedToSync :=
  match db.feeds.find? (fun f => decide (f.id = feed_id)) with
  | none => (db, none)
  | some f =>
    let feeds' := db.feeds.map fun g =>
      if g.id = feed_id then { g with sync_started_at := some db.now } else g
    ({ db with feeds := feeds' }, some f.toFeedToSync)

/-- Claim C2: `get_feeds_to_sync(threshold)` returns exactly the feeds that
are not tagged `parse_error` and are either unclaimed with a stale (or
null) `last_synced_at`, or hold a claim older than five minutes; every
returned row is stamped `sync_started_at = now`, ineligible rows are left
untouched, and a `parse_error` feed is never among the returned rows. -/
theorem get_feeds_to_sync_spec (db : Db) (threshold : Int)
    (hids : (db.feeds.map FeedRow.id).Nodup) :
    (∀ r ∈ (get_feeds_to_sync db threshold).2,
       ∃ f ∈ db.feeds, EligibleSpec db.now threshold f ∧ r = f.toFeedToSync) ∧
    (∀ f ∈ db.feeds, EligibleSpec db.now threshold f →
       f.toFeedToSync ∈ (get_feeds_to_sync db threshold).2) ∧
    (∀ f ∈ db.feeds, EligibleSpec db.now threshold f →
       { f with sync_started_at := some db.now } ∈ (get_feeds_to_sync db threshold).1.feeds) ∧
    (∀ f ∈ db.feeds, ¬ EligibleSpec db.now threshold f →
       f ∈ (get_feeds_to_sync db threshold).1.feeds) ∧
    (∀ f ∈ db.feeds, f.last_sync_result = some ("parse_error") →
       ∀ r ∈ (get_feeds_to_sync db threshold).2, r.id ≠ f.id) := by
  refine ⟨?_, ?_, ?_, ?_, ?_⟩
  · intro r hr
    simp only [get_feeds_to_sync, List.mem_map, List.mem_filter] at hr
    obtain ⟨f, ⟨hf, helig⟩, hr⟩ := hr
    exact ⟨f, hf, (feedEligibleToSync_iff _ _ _).1 helig, hr.symm⟩
  · intro f hf helig
    simp only [get_feeds_to_sync, List.mem_map]
    exact ⟨f, List.mem_filter.2 ⟨hf, (feedEligibleToSync_iff _ _ _).2 helig⟩, rfl⟩
  · intro f hf helig
    simp only [get_feeds_to_sync]
    refine List.mem_map.2 ⟨f, hf, ?_⟩
    show (if feedEligibleToSync db.now threshold f then
      { f with sync_started_at := some db.now } else f) = _
    rw [if_pos ((feedEligibleToSync_iff _ _ _).2 helig)]
  · intro f hf helig
    simp only [get_feeds_to_sync]
    refine List.mem_map.2 ⟨f, hf, ?_⟩
    show (if feedEligibleToSync db.now threshold f then
      { f with sync_started_at := some db.now } else f) = _
    rw [if_neg (fun h => helig ((feedEligibleToSync_iff _ _ _).1 h))]
  · intro f hf hpe r hr
    simp only [get_feeds_to_sync, List.mem_map, List.mem_filter] at hr
    obtain ⟨g, ⟨hg, helig⟩, hrg⟩ := hr
    intro hid
    have hgf : g = f := by
      have hinj := List.inj_on_of_nodup_map hids
      apply hinj hg hf
      simp [FeedRow.toFeedToSync, ← hrg] at hid
      exact hid
    subst hgf
    exact ((feedEligibleToSync_iff _ _ _).1 helig).1 (by simp [hpe])

/-- Witness for C2 at a concrete database: one stale unclaimed feed is
returned and stamped, one `parse_error` feed is excluded. -/
theorem get_feeds_to_sync_spec_witness :
    (([({ id := 0, feed_url := ("a") } : FeedRow),
       { id := 1, feed_url := ("b"), last_sync_result := some ("parse_error") }].map
        FeedRow.id).Nodup) ∧
    ({ id := 0, feed_url := ("a"), sync_started_at := some 0 } : FeedRow) ∈
      (get_feeds_to_sync
        { feeds := [{ id := 0, feed_url := ("a") },
                    { id := 1, feed_url := ("b"),
                      last_sync_result := some ("parse_error") }] } 5).1.feeds := by
  constructor
  · decide
  · have h := get_feeds_to_sync_spec
      { feeds := [{ id := 0, feed_url := ("a") },
                  { id := 1, feed_url := ("b"),
                    last_sync_result := some ("parse_error") }] } 5 (by decide)
    exact h.2.2.1 { id := 0, feed_url := ("a") } (by simp)
      ⟨by simp, Or.inl ⟨rfl, by simp⟩⟩

/-- Claim C10: `get_one_feed_to_sync` claims the feed unconditionally:
whenever a row with the requested id exists it is returned and stamped
`sync_started_at = now`, with no hypothesis on `last_sync_result` (in
particular `parse_error`) nor on any claim already held. -/
theorem get_one_feed_to_sync_claims_unconditionally (db : Db) (fid : Nat)
    (f : FeedRow)
    (hfind : db.feeds.find? (fun g => decide (g.id = fid)) = some f) :
    (get_one_feed_to_sync db fid).2 = some f.toFeedToSync ∧
    { f with sync_started_at := some db.now } ∈ (get_one_feed_to_sync db fid).1.feeds := by
  have hmem : f ∈ db.feeds := List.mem_of_find?_eq_some hfind
  have hid : f.id = fid := by
    have := List.find?_some hfind
    simp at this
    exact this
  constructor
  · simp [get_one_feed_to_sync, hfind]
  · simp only [get_one_feed_to_sync, hfind]
    refine List.mem_map.2 ⟨f, hmem, ?_⟩
    show (if f.id = fid then { f with sync_started_at := some db.now } else f) = _
    rw [if_pos hid]

/-! ## upsert_feed_and_entries_and_icon (db/pg/mod.rs lines 40-149)

The operation runs inside one transaction.  Each SQL statement can fail
for reasons outside the model (connection loss, constraint violations on
other columns, ...); a `StatementOracle` says which statements succeed.
An error before `commit` drops the transaction, so the returned state is
the original one.  `push_values` with an empty entry list builds a
syntactically invalid `INSERT`, so an empty (deduplicated) batch makes
the entries statement fail. -/

/-- In-batch deduplication by `url`, first seen wins (the `HashSet` filter
at the top of the function). -/
def dedupEntriesByUrl : List NewEntry → List String → List NewEntry
  | [], _ => []
  | e :: rest, seen =>
    if e.url ∈ seen then dedupEntriesByUrl rest seen
    else e :: dedupEntriesByUrl rest (e.url :: seen)

/-- One row of the batched `INSERT INTO entries ... ON CONFLICT (feed_id,
url) DO UPDATE` statement. -/
def upsertEntryRow (db : Db) (feed_id : Nat) (e : NewEntry) : Db :=
  if db.entries.any (fun r => decide (r.feed_id = feed_id ∧ r.url = e.url)) then
    { db with entries := db.entries.map fun r =>
        if r.feed_id = feed_id ∧ r.url = e.url then
          { r with title := e.title, url := e.url, comments_url := e.comments_url,
                   published_at := e.published_at,
                   entry_updated_at := e.entry_updated_at }
        else r }
  else
    { db with
      entries := db.entries ++
        [{ id := db.next_id, feed_id := feed_id, title := e.title, url := e.url,
           comments_url := e.comments_url, published_at := e.published_at,
           entry_updated_at := e.entry_updated_at, created_at := db.now }],
      next_id := db.next_id + 1 }

def upsertEntries (db : Db) (feed_id : Nat) (entries : List NewEntry) : Db :=
  entries.foldl (fun acc e => upsertEntryRow acc feed_id e) db

/-- The icon CTE: `INSERT INTO icons ... ON CONFLICT (hash) DO UPDATE SET
hash = excluded.hash RETURNING id` (on conflict the existing row's id is
returned), then `INSERT INTO feeds_icons ... ON CONFLICT DO NOTHING`. -/
def upsertIcon (db : Db) (feed_id : Nat) (icon : NewIcon) : Db :=
  let p : Db × Nat := match db.icons.find? (fun i => decide (i.hash = icon.hash)) with
    | some existing => (db, existing.id)
    | none =>
      ({ db with
         icons := db.icons ++
           [{ id := db.next_id, hash := icon.hash, data := icon.data,
              content_type := icon.content_type }],
         next_id := db.next_id + 1 },
       db.next_id)
  let db2 := p.1
  let icon_id := p.2
  if db2.feeds_icons.any (fun l => decide (l.feed_id = feed_id ∧ l.icon_id = icon_id)) then
    db2
  else { db2 with feeds_icons := db2.feeds_icons ++ [⟨feed_id, icon_id⟩] }

/-- Which statements of the transaction succeed; failures model the
database refusing a statement for reasons outside the translated SQL. -/
structure StatementOracle where
  feedStmtOk : Bool := true
  entriesStmtOk : Bool := true
  iconStmtOk : Bool := true
  commitOk : Bool := true

/-- The updated feed row produced by the `ON CONFLICT (feed_url) DO
UPDATE` arm. -/
def conflictUpdatedFeed (now : Int) (feed : NewFeed) (f : FeedRow) : FeedRow :=
  { f with source_title := feed.title, site_url := feed.site_url,
           updated_at := some now, sync_started_at := none,
           last_synced_at := some now, last_sync_result := some ("success") }

/-- The feed statement: `INSERT INTO feeds ... ON CONFLICT (feed_url) DO
UPDATE ... RETURNING id`. -/
def upsertFeedStep (db : Db) (feed : NewFeed) : Db × Nat :=
  match db.feeds.find? (fun f => decide (f.feed_url = feed.feed_url)) with
  | some existing =>
    ({ db with feeds := db.feeds.map fun f =>
        if f.feed_url = feed.feed_url then conflictUpdatedFeed db.now feed f
        else f },
     existing.id)
  | none =>
    ({ db with
       feeds := db.feeds ++
         [{ id := db.next_id, source_title := feed.title,
            feed_url := feed.feed_url, site_url := feed.site_url,
            created_at := db.now, last_synced_at := some db.now,
            last_sync_result := some ("success"), sync_started_at := none }],
       next_id := db.next_id + 1 },
     db.next_id)

/-- The three statements of the transaction in order; this is the state
the transaction commits. -/
def upsertAllSteps (db : Db) (feed : NewFeed) (entries : List NewEntry)
    (icon : Option NewIcon) : Db :=
  let s := upsertFeedStep db feed
  let tx2 := upsertEntries s.1 s.2 (dedupEntriesByUrl entries [])
  match icon with
  | none => tx2
  | some ic => upsertIcon tx2 s.2 ic

def upsert_feed_and_entries_and_icon (db : Db) (o : StatementOracle)
    (feed : NewFeed) (entries : List NewEntry) (icon : Option NewIcon) :
    Db × Except String Unit :=
  if !o.feedStmtOk then (db, .error ("error upserting feed")) else
  if !o.entriesStmtOk || (dedupEntriesByUrl entries []).isEmpty then
    (db, .error ("error inserting entries")) else
  if !o.iconStmtOk then (db, .error ("error upserting icon and feeds_icons")) else
  if !o.commitOk then (db, .error ("error committing transaction")) else
  (upsertAllSteps db feed entries icon, .ok ())

theorem upsertEntryRow_feeds (db : Db) (fid : Nat) (e : NewEntry) :
    (upsertEntryRow db fid e).feeds = db.feeds := by
  unfold upsertEntryRow
  split <;> rfl

theorem upsertEntries_feeds (db : Db) (fid : Nat) (l : List NewEntry) :
    (upsertEntries db fid l).feeds = db.feeds := by
  induction l generalizing db with
  | nil => rfl
  | cons e rest ih =>
    unfold upsertEntries at ih ⊢
    simp only [List.foldl_cons]
    rw [ih, upsertEntryRow_feeds]

theorem upsertIcon_feeds (db : Db) (fid : Nat) (ic : NewIcon) :
    (upsertIcon db fid ic).feeds = db.feeds := by
  unfold upsertIcon
  cases h : db.icons.find? (fun i => decide (i.hash = ic.hash)) <;>
    simp [h] <;> split <;> rfl

theorem upsertAllSteps_feeds (db : Db) (feed : NewFeed)
    (entries : List NewEntry) (icon : Option NewIcon) :
    (upsertAllSteps db feed entries icon).feeds = (upsertFeedStep db feed).1.feeds := by
  unfold upsertAllSteps
  cases icon with
  | none => exact upsertEntries_feeds _ _ _
  | some ic => rw [upsertIcon_feeds, upsertEntries_feeds]

theorem filter_map_of_pred_invariant {α : Type} (g : α → α) (p : α → Bool)
    (l : List α) (h : ∀ x, p (g x) = p x) :
    (l.map g).filter p = (l.filter p).map g := by
  induction l with
  | nil => rfl
  | cons x xs ih =>
    by_cases hx : p x = true
    · simp [List.filter_cons, hx, h x, ih]
    · simp only [Bool.not_eq_true] at hx
      simp [List.filter_cons, hx, h x, ih]

theorem conflictUpdatedFeed_feed_url (now : Int) (feed : NewFeed) (f : FeedRow) :
    (conflictUpdatedFeed now feed f).feed_url = f.feed_url := rfl

theorem upsert_ok_state (db : Db) (o : StatementOracle) (feed : NewFeed)
    (entries : List NewEntry) (icon : Option NewIcon)
    (hok : (upsert_feed_and_entries_and_icon db o feed entries icon).2 = .ok ()) :
    (upsert_feed_and_entries_and_icon db o feed entries icon).1 =
      upsertAllSteps db feed entries icon := by
  unfold upsert_feed_and_entries_and_icon at hok ⊢
  by_cases h1 : o.feedStmtOk = true <;>
    by_cases h2 : (!o.entriesStmtOk || (dedupEntriesByUrl entries []).isEmpty) = true <;>
    by_cases h3 : o.iconStmtOk = true <;>
    by_cases h4 : o.commitOk = true <;>
    simp_all

/-- Claim C1: the upsert is all-or-nothing — any statement failure leaves
the state untouched — and on success, given the `feed_url` uniqueness
constraint held before, exactly one feed row carries the upserted
`feed_url`; when such a row already existed it is updated in place
(`source_title`, `site_url`, `updated_at`, `last_synced_at` stamped,
`sync_started_at` cleared, `last_sync_result = 'success'`) keeping its
id, and every other feed row is untouched. -/
theorem upsert_feed_atomic_and_unique (db : Db) (o : StatementOracle)
    (feed : NewFeed) (entries : List NewEntry) (icon : Option NewIcon)
    (huniq : (db.feeds.filter (fun f => decide (f.feed_url = feed.feed_url))).length ≤ 1) :
    (∀ e, (upsert_feed_and_entries_and_icon db o feed entries icon).2 = .error e →
      (upsert_feed_and_entries_and_icon db o feed entries icon).1 = db) ∧
    ((upsert_feed_and_entries_and_icon db o feed entries icon).2 = .ok () →
      (((upsert_feed_and_entries_and_icon db o feed entries icon).1.feeds.filter
          (fun f => decide (f.feed_url = feed.feed_url))).length = 1 ∧
       (∀ old ∈ db.feeds, old.feed_url = feed.feed_url →
          conflictUpdatedFeed db.now feed old ∈
            (upsert_feed_and_entries_and_icon db o feed entries icon).1.feeds) ∧
       (∀ old ∈ db.feeds, old.feed_url ≠ feed.feed_url →
          old ∈ (upsert_feed_and_entries_and_icon db o feed entries icon).1.feeds))) := by
  constructor
  · intro e h
    unfold upsert_feed_and_entries_and_icon at h ⊢
    by_cases h1 : o.feedStmtOk = true <;>
      by_cases h2 : (!o.entriesStmtOk || (dedupEntriesByUrl entries []).isEmpty) = true <;>
      by_cases h3 : o.iconStmtOk = true <;>
      by_cases h4 : o.commitOk = true <;>
      simp_all
  · intro hok
    rw [upsert_ok_state db o feed entries icon hok, upsertAllSteps_feeds]
    unfold upsertFeedStep
    cases hfind : db.feeds.find? (fun f => decide (f.feed_url = feed.feed_url)) with
    | none =>
      have hnone : ∀ f ∈ db.feeds, f.feed_url ≠ feed.feed_url := by
        intro f hfmem hcontra
        have := List.find?_eq_none.1 hfind f hfmem
        simp [hcontra] at this
      refine ⟨?_, ?_, ?_⟩
      · simp only [List.filter_append]
        rw [List.filter_eq_nil_iff.2 (by
          intro f hfmem
          simp [hnone f hfmem])]
        simp
      · intro old hold hurl
        exact absurd hurl (hnone old hold)
      · intro old hold _
        exact List.mem_append_left _ hold
    | some existing =>
      have hmem : existing ∈ db.feeds := List.mem_of_find?_eq_some hfind
      have hex : existing.feed_url = feed.feed_url := by
        have := List.find?_some hfind
        simpa using this
      refine ⟨?_, ?_, ?_⟩
      · rw [filter_map_of_pred_invariant _ _ _ (by
          intro x
          by_cases hx : x.feed_url = feed.feed_url
          · simp [hx, conflictUpdatedFeed_feed_url]
          · simp [hx])]
        rw [List.length_map]
        have hge : 0 < (db.feeds.filter
            (fun f => decide (f.feed_url = feed.feed_url))).length := by
          have : existing ∈ db.feeds.filter
              (fun f => decide (f.feed_url = feed.feed_url)) :=
            List.mem_filter.2 ⟨hmem, by simp [hex]⟩
          exact List.length_pos.2 (List.ne_nil_of_mem this)
        omega
      · intro old hold hurl
        refine List.mem_map.2 ⟨old, hold, ?_⟩
        show (if old.feed_url = feed.feed_url then
          conflictUpdatedFeed db.now feed old else old) = _
        rw [if_pos hurl]
      · intro old hold hurl
        refine List.mem_map.2 ⟨old, hold, ?_⟩
        show (if old.feed_url = feed.feed_url then
          conflictUpdatedFeed db.now feed old else old) = _
        rw [if_neg hurl]

/-- Witness for C1: a concrete conflicting upsert over a two-feed database
commits and satisfies the postconditions; the uniqueness precondition is
discharged by evaluation. -/
theorem upsert_feed_atomic_and_unique_witness :
    (((([({ id := 0, feed_url := ("u"), source_title := ("old") } : FeedRow),
         { id := 1, feed_url := ("v") }] : List FeedRow).filter
        (fun f => decide (f.feed_url = ("u")))).length ≤ 1) ∧
     ((upsert_feed_and_entries_and_icon
        { feeds := [{ id := 0, feed_url := ("u"), source_title := ("old") },
                    { id := 1, feed_url := ("v") }], now := 42 } {}
        { title := ("new"), feed_url := ("u") }
        [{ url := ("e1") }] none).1.feeds.filter
        (fun f => decide (f.feed_url = ("u")))).length = 1) := by
  refine ⟨by decide, ?_⟩
  have h := upsert_feed_atomic_and_unique
    { feeds := [{ id := 0, feed_url := ("u"), source_title := ("old") },
                { id := 1, feed_url := ("v") }], now := 42 } {}
    { title := ("new"), feed_url := ("u") }
    [{ url := ("e1") }] none (by decide)
  exact (h.2 rfl).1

/-- Witness for C10: a feed tagged `parse_error` holding a fresh claim is
still claimed and returned by the manual-sync query. -/
theorem get_one_feed_to_sync_witness :
    (get_one_feed_to_sync
      { feeds := [{ id := 7, feed_url := ("u"),
                    last_sync_result := some ("parse_error"),
                    sync_started_at := some 90 }], now := 100 } 7).2 =
      some ⟨7, ("u"), none⟩ := by
  exact (get_one_feed_to_sync_claims_unconditionally
    { feeds := [{ id := 7, feed_url := ("u"),
                  last_sync_result := some ("parse_error"),
                  sync_started_at := some 90 }], now := 100 } 7
    { id := 7, feed_url := ("u"), last_sync_result := some ("parse_error"),
      sync_started_at := some 90 } (by decide)).1

/-! ## Feed loader: URLs and href absolutization
(feed_loader/mod.rs lines 165-171 and 375-434)

A `url::Url` is reduced to the parts the loader reads:
`origin().ascii_serialization()` and `path()`. -/

structure Url where
  origin : String
  path : String
deriving Repr, DecidableEq

def url_to_string (u : Url) : String := u.origin ++ u.path

/-- `str::starts_with`, modelled over the character list so that it is
kernel-computable. -/
def strStartsWith (s pre : String) : Bool :=
  decide (s.toList.take pre.toList.length = pre.toList)

/-- `str::trim`: strip leading and trailing whitespace. -/
def strTrim (s : String) : String :=
  ⟨((s.toList.dropWhile Char.isWhitespace).reverse.dropWhile
      Char.isWhitespace).reverse⟩

/-- `str::is_empty`. -/
def strIsEmpty (s : String) : Bool := decide (s.toList = [])

/-- `str::trim_end_matches("/")`: strip every trailing slash. -/
def trimEndSlashes (s : String) : String :=
  ⟨(s.toList.reverse.dropWhile (fun c => c = '/')).reverse⟩

/-- `str::trim_start_matches('/')`: strip every leading slash. -/
def trimStartSlashes (s : String) : String :=
  ⟨s.toList.dropWhile (fun c => c = '/')⟩

/-- The closure mapped over discovered hrefs in
`discover_feed_and_favicon_url`: a relative href is glued to the page
URL (`url_to_string` of the final location) with a single slash. -/
def absolutizeHref (url href : String) : String :=
  if !strStartsWith href ("http") then
    trimEndSlashes url ++ ("/") ++ trimStartSlashes href
  else href

/-- The candidate list built from the hrefs extracted out of the page's
head (the DOM walk itself is `Html.feed_urls` below). -/
def discoverFeedCandidates (hrefs : List String) (url : String) : List String :=
  hrefs.map (absolutizeHref url)

theorem trimEndSlashes_of_getLast_ne (s : String)
    (h : s.toList.getLast? ≠ some '/') : trimEndSlashes s = s := by
  unfold trimEndSlashes
  cases s with
  | mk data =>
    simp only [String.toList] at h ⊢
    cases hrev : data.reverse with
    | nil =>
      have : data = [] := by simpa using congrArg List.reverse hrev
      simp [this]
    | cons a as =>
      have ha : a ≠ '/' := by
        intro hcontra
        apply h
        rw [← List.head?_reverse, hrev, hcontra]
        rfl
      rw [List.dropWhile_cons_of_neg (by simpa using ha)]
      rw [← hrev, List.reverse_reverse]

theorem trimEndSlashes_append_slash (s : String)
    (h : s.toList.getLast? ≠ some '/') : trimEndSlashes (s ++ ("/")) = s := by
  unfold trimEndSlashes
  cases s with
  | mk data =>
    simp only [String.toList] at h ⊢
    have htl : (String.mk data ++ String.mk [('/')]).data = data ++ [('/')] := rfl
    rw [htl, List.reverse_append]
    simp only [List.reverse_cons, List.reverse_nil, List.nil_append, List.singleton_append]
    rw [List.dropWhile_cons_of_pos (by simp)]
    cases hrev : data.reverse with
    | nil =>
      have : data = [] := by simpa using congrArg List.reverse hrev
      simp [this]
    | cons a as =>
      have ha : a ≠ '/' := by
        intro hcontra
        apply h
        rw [← List.head?_reverse, hrev, hcontra]
        rfl
      rw [List.dropWhile_cons_of_neg (by simpa using ha)]
      rw [← hrev, List.reverse_reverse]

/-- Counterexample to claim C9: the page
`https://example.com/blog/page.html` with relative href `feed.xml` is
absolutized to a candidate that still contains the page's own path, not
to a candidate rooted at the origin. -/
theorem discover_candidate_keeps_page_path :
    discoverFeedCandidates [("feed.xml")]
        (url_to_string ⟨("https://example.com"), ("/blog/page.html")⟩) =
      [("https://example.com/blog/page.html/feed.xml")] ∧
    (("https://example.com/blog/page.html/feed.xml") : String) ≠
      ("https://example.com/feed.xml") := by
  exact ⟨by decide, by decide⟩

/-- Claim C9 amended: a relative feed href is joined against
origin-plus-path of the final URL, a single slash between both trimmed
sides; this coincides with the claimed origin join exactly when the
page's path is the root `/`. -/
theorem absolutizeHref_origin_plus_path (u : Url) (href : String)
    (hrel : strStartsWith href ("http") = false)
    (horigin : u.origin.toList.getLast? ≠ some '/') :
    (u.path.toList.getLast? ≠ some '/' →
      absolutizeHref (url_to_string u) href =
        u.origin ++ u.path ++ ("/") ++ trimStartSlashes href) ∧
    (u.path = ("/") →
      absolutizeHref (url_to_string u) href =
        u.origin ++ ("/") ++ trimStartSlashes href) := by
  constructor
  · intro hpath
    unfold absolutizeHref url_to_string
    rw [hrel]
    simp only [Bool.not_false, if_true]
    have hne : trimEndSlashes (u.origin ++ u.path) = u.origin ++ u.path := by
      apply trimEndSlashes_of_getLast_ne
      show ((u.origin ++ u.path).data).getLast? ≠ some '/'
      rw [String.data_append]
      cases hp : u.path.data with
      | nil =>
        intro hcontra
        apply horigin
        simpa using hcontra
      | cons a as =>
        rw [List.getLast?_append_of_ne_nil _ (by simp)]
        have hp2 : u.path.data.getLast? ≠ some '/' := hpath
        rw [hp] at hp2
        exact hp2
    rw [hne]
  · intro hroot
    unfold absolutizeHref url_to_string
    rw [hrel]
    simp only [Bool.not_false, if_true]
    rw [hroot]
    rw [trimEndSlashes_append_slash u.origin horigin]

/-- Witness for C9 at the root path. -/
theorem absolutizeHref_origin_plus_path_witness :
    absolutizeHref (url_to_string ⟨("https://example.com"), ("/")⟩) ("feed.xml") =
      ("https://example.com") ++ ("/") ++ trimStartSlashes ("feed.xml") := by
  exact (absolutizeHref_origin_plus_path
    ⟨("https://example.com"), ("/")⟩ ("feed.xml") (by decide) (by decide)).2 rfl

/-! ## RSS parser (feed_loader/feed.rs lines 23-79)

`rss::Channel::read_from` is external: the model starts from the parsed
channel.  `DateTime::parse_from_rfc2822` is external too and passed as a
parameter; the `.unwrap()` on its result is a panic, which the embedding
propagates as `none` for the whole call. -/

structure ParsedFeed where
  title : String
  site_url : Option String
deriving Repr, DecidableEq

structure RssItem where
  title : Option String := none
  link : Option String := none
  pub_date : Option String := none
  comments : Option String := none
deriving Repr, DecidableEq

structure RssChannel where
  title : String := ""
  link : String := ""
  items : List RssItem := []
deriving Repr, DecidableEq

/-- One iteration of the fold over `parsed.items`; `none` is the panicked
state. -/
def rssItemStep (parseRfc2822 : String → Option Int)
    (acc : Option (List NewEntry × Nat)) (item : RssItem) :
    Option (List NewEntry × Nat) :=
  match acc with
  | none => none
  | some (entries, skipped) =>
    match item.title with
    | none => some (entries, skipped + 1)
    | some title =>
      if strIsEmpty (strTrim title) then some (entries, skipped + 1)
      else
        match item.link with
        | none => some (entries, skipped + 1)
        | some url =>
          match item.pub_date with
          | none =>
            let e : NewEntry :=
              { title := title, url := url, comments_url := item.comments }
            some (entries ++ [e], skipped)
          | some d =>
            match parseRfc2822 d with
            | none => none
            | some ts =>
              let e : NewEntry :=
                { title := title, url := url, comments_url := item.comments,
                  published_at := some ts }
              some (entries ++ [e], skipped)

def parse_rss (parseRfc2822 : String → Option Int) (ch : RssChannel) :
    Option (ParsedFeed × List NewEntry × Nat) :=
  (ch.items.foldl (rssItemStep parseRfc2822) (some ([], 0))).map
    fun p => (⟨ch.title, some ch.link⟩, p.1, p.2)

theorem foldl_rssItemStep_none (parse : String → Option Int) (l : List RssItem) :
    l.foldl (rssItemStep parse) none = none := by
  induction l with
  | nil => rfl
  | cons item rest ih => simpa [rssItemStep] using ih

def c8DateParser (s : String) : Option Int :=
  if s = ("Mon, 01 Jan 2024 00:00:00 +0000") then some 1704067200 else none

def c8GoodItem : RssItem :=
  { title := some ("a"), link := some ("https://e/a"),
    pub_date := some ("Mon, 01 Jan 2024 00:00:00 +0000") }

def c8BadItem : RssItem :=
  { title := some ("b"), link := some ("https://e/b"), pub_date := some ("not a date") }

def c8BadChannel : RssChannel :=
  { title := ("t"), link := ("l"), items := [c8GoodItem, c8BadItem] }

def c8GoodChannel : RssChannel :=
  { title := ("t"), link := ("l"), items := [c8GoodItem] }

def c8GoodEntry : NewEntry :=
  { title := ("a"), url := ("https://e/a"), published_at := some 1704067200 }

/-- Counterexample to claim C8: one unparseable `pubDate` panics the
whole parse — the channel with a good item and a bad item yields no
result at all, while the same channel without the bad item parses. -/
theorem parse_rss_pubdate_panic_not_confined :
    parse_rss c8DateParser c8BadChannel = none ∧
    parse_rss c8DateParser c8GoodChannel =
      some (⟨("t"), some ("l")⟩, [c8GoodEntry], 0) := by
  exact ⟨by decide, by decide⟩

/-- Claim C8 amended: when every present `pubDate` parses, `parse_rss`
returns a result; but any non-skipped item whose `pubDate` fails RFC-2822
parsing panics the whole call — the failure is not confined to that item
and even well-formed items are lost. -/
theorem parse_rss_ok_or_aborts (parse : String → Option Int) (ch : RssChannel) :
    ((∀ item ∈ ch.items, ∀ d, item.pub_date = some d → (parse d).isSome) →
      (parse_rss parse ch).isSome) ∧
    (∀ pre item suf t u d, ch.items = pre ++ item :: suf →
      item.title = some t → strIsEmpty (strTrim t) = false →
      item.link = some u → item.pub_date = some d → parse d = none →
      parse_rss parse ch = none) := by
  constructor
  · intro hall
    unfold parse_rss
    have key : ∀ (l : List RssItem) (acc : List NewEntry × Nat),
        (∀ item ∈ l, ∀ d, item.pub_date = some d → (parse d).isSome) →
        (l.foldl (rssItemStep parse) (some acc)).isSome := by
      intro l
      induction l with
      | nil => intro acc _; simp
      | cons item rest ih =>
        intro acc hl
        have hitem := hl item (List.mem_cons_self _ _)
        have hrest : ∀ i ∈ rest, ∀ d, i.pub_date = some d → (parse d).isSome :=
          fun i hi => hl i (List.mem_cons_of_mem _ hi)
        simp only [List.foldl_cons]
        have hstep : ∃ acc2, rssItemStep parse (some acc) item = some acc2 := by
          unfold rssItemStep
          cases ht : item.title with
          | none => exact ⟨_, rfl⟩
          | some t =>
            by_cases htrim : strIsEmpty (strTrim t) = true
            · simp [htrim]
            · simp only [htrim, Bool.false_eq_true, if_neg, ite_false]
              cases hlink : item.link with
              | none => exact ⟨_, rfl⟩
              | some u =>
                cases hd : item.pub_date with
                | none => simp
                | some d =>
                  have := hitem d hd
                  cases hp : parse d with
                  | none => rw [hp] at this; simp at this
                  | some ts => simp [hp]
        obtain ⟨acc2, hacc2⟩ := hstep
        rw [hacc2]
        exact ih acc2 hrest
    have := key ch.items ([], 0) hall
    cases hres : ch.items.foldl (rssItemStep parse) (some ([], 0)) with
    | none => rw [hres] at this; simp at this
    | some p => simp [hres]
  · intro pre item suf t u d hsplit ht htrim hu hd hp
    unfold parse_rss
    rw [hsplit, List.foldl_append]
    cases hfold : pre.foldl (rssItemStep parse) (some ([], 0)) with
    | none => rw [List.foldl_cons, show rssItemStep parse none item = none from rfl,
        foldl_rssItemStep_none]; rfl
    | some acc =>
      rw [List.foldl_cons]
      have hnone : rssItemStep parse (some acc) item = none := by
        unfold rssItemStep
        simp [ht, hu, hd, htrim, hp]
      rw [hnone, foldl_rssItemStep_none]
      rfl

/-- Witness for C8's amended claim at a concrete channel and date parser. -/
theorem parse_rss_ok_or_aborts_witness :
    parse_rss c8DateParser c8BadChannel = none := by
  exact (parse_rss_ok_or_aborts c8DateParser c8BadChannel).2
    [c8GoodItem] c8BadItem [] ("b") ("https://e/b") ("not a date")
    rfl rfl (by decide) rfl rfl (by decide)

/-! ## HTML head extractor (feed_loader/html.rs)

`html5ever::parse_document` is external; the model starts from its
output DOM.  The HTML5 tree-construction algorithm synthesizes an `html`
element containing a `head` element for every input, malformed or not,
and `read_from` cannot fail on an in-memory buffer; `Dom.WellFormed`
captures that contract.  The `.unwrap()` calls of `from_bytes` are
panics, embedded as `none`. -/

structure HtmlAttr where
  name : String
  value : String
deriving Repr

inductive DomNode where
  | element (name : String) (attrs : List HtmlAttr) (children : List DomNode)
  | text (s : String)
deriving Repr

structure Dom where
  children : List DomNode
deriving Repr

def DomNode.isElementNamed (nm : String) : DomNode → Bool
  | .element name _ _ => decide (name = nm)
  | _ => false

def DomNode.childNodes : DomNode → List DomNode
  | .element _ _ ch => ch
  | _ => []

structure Html where
  head_children : List DomNode

def Html.from_bytes (dom : Dom) : Option Html :=
  match dom.children.find? (DomNode.isElementNamed ("html")) with
  | none => none
  | some htmlElem =>
    match htmlElem.childNodes.find? (DomNode.isElementNamed ("head")) with
    | none => none
    | some headElem => some ⟨headElem.childNodes⟩

def ICON_RELS : List String := [("icon"), ("shortcut icon"), ("apple-touch-icon")]

/-- `str::contains` on a substring pattern. -/
def strContains (hay needle : String) : Bool :=
  decide (List.IsInfix needle.toList hay.toList)

def Html.favicon_urls (h : Html) : List String :=
  h.head_children.filterMap fun child =>
    match child with
    | .element name attrs _ =>
      if name ≠ ("link") then none
      else
        match attrs.find? (fun a => decide (a.name = ("rel"))) with
        | none => none
        | some relAttr =>
          if relAttr.value ∈ ICON_RELS then
            (attrs.find? (fun a => decide (a.name = ("href")))).map HtmlAttr.value
          else none
    | _ => none

def Html.feed_urls (h : Html) : List String :=
  h.head_children.filterMap fun child =>
    match child with
    | .element name attrs _ =>
      if name ≠ ("link") then none
      else
        if attrs.any (fun a =>
            (decide (a.name = ("href")) || decide (a.name = ("type"))) &&
            (strContains a.value ("rss") || strContains a.value ("atom"))) then
          (attrs.find? (fun a => decide (a.name = ("href")))).map HtmlAttr.value
        else none
    | _ => none

/-- The contract of `html5ever`'s full-document parse: the first `html`
element exists and contains a `head` element (both are synthesized when
the input text lacks them). -/
def Dom.WellFormed (dom : Dom) : Prop :=
  ∃ htmlElem,
    dom.children.find? (DomNode.isElementNamed ("html")) = some htmlElem ∧
    (htmlElem.childNodes.find? (DomNode.isElementNamed ("head"))).isSome

/-- Claim C7: on every DOM the HTML5 parser can produce, `from_bytes`
returns (the `.unwrap()` calls cannot fire), and a head with no `link`
children — in particular the empty head synthesized for a document
missing `<html>` or `<head>` — yields empty feed-url and favicon-url
lists. -/
theorem from_bytes_total_and_soft (dom : Dom) (hwf : dom.WellFormed) :
    (Html.from_bytes dom).isSome ∧
    (∀ h, Html.from_bytes dom = some h →
      (∀ c ∈ h.head_children, c.isElementNamed ("link") = false) →
      h.feed_urls = [] ∧ h.favicon_urls = []) := by
  obtain ⟨htmlElem, hfind, hhead⟩ := hwf
  constructor
  · unfold Html.from_bytes
    rw [hfind]
    cases hh : htmlElem.childNodes.find? (DomNode.isElementNamed ("head")) with
    | none => rw [hh] at hhead; simp at hhead
    | some headElem => simp [hh]
  · intro h _ hnolink
    constructor
    · unfold Html.feed_urls
      rw [List.filterMap_eq_nil_iff]
      intro c hc
      cases c with
      | text s => rfl
      | element name attrs children =>
        have := hnolink _ hc
        simp [DomNode.isElementNamed] at this
        simp [this]
    · unfold Html.favicon_urls
      rw [List.filterMap_eq_nil_iff]
      intro c hc
      cases c with
      | text s => rfl
      | element name attrs children =>
        have := hnolink _ hc
        simp [DomNode.isElementNamed] at this
        simp [this]

/-- Witness for C7: a DOM with an empty synthesized head (as produced for
an input with no head at all) parses and yields empty lists. -/
theorem from_bytes_total_and_soft_witness :
    (Html.from_bytes ⟨[.element ("html") [] [.element ("head") [] []]]⟩).isSome := by
  exact (from_bytes_total_and_soft
    ⟨[.element ("html") [] [.element ("head") [] []]]⟩
    ⟨.element ("html") [] [.element ("head") [] []], rfl, rfl⟩).1

/-! ## fetch_feed (feed_loader/mod.rs lines 191-248)

The HTTP exchange is external: the model takes the response the shared
client produced (after redirects).  `body_text` is the
`String::from_utf8_lossy` rendering of the body bytes. -/

structure HttpResponse where
  status : Nat
  content_type : Option String := none
  bytes : List Nat := []
  body_text : String := ""
  location : Url := ⟨(""), ("")⟩
deriving Repr, DecidableEq

inductive FeedFetchResult where
  | Feed (bytes : List Nat) (location : Url)
  | Html (bytes : List Nat) (location : Url)
  | NotFound
  | Unknown (status : Nat) (body : String)
deriving Repr, DecidableEq

def fetch_feed (resp : HttpResponse) : Except String FeedFetchResult :=
  if resp.status = 404 then .ok .NotFound
  else if resp.status = 200 then
    match resp.content_type with
    | none => .error ("no content type found")
    | some ct =>
      if strStartsWith ct ("text/html") then .ok (.Html resp.bytes resp.location)
      else if strStartsWith ct ("text/xml") || strStartsWith ct ("application/rss+xml")
          || strStartsWith ct ("application/atom+xml")
          || strStartsWith ct ("application/xml") then
        .ok (.Feed resp.bytes resp.location)
      else .ok (.Unknown 200 resp.body_text)
  else .ok (.Unknown resp.status resp.body_text)

def c6JsonResponse : HttpResponse :=
  { status := 200, content_type := some ("application/json"),
    bytes := [123], body_text := ("{}"), location := ⟨("https://e"), ("/")⟩ }

def c6NoCtResponse : HttpResponse :=
  { status := 200, location := ⟨("https://e"), ("/")⟩ }

/-- Counterexample to claim C6: a `200` whose Content-Type is
`application/json` is classified `Unknown` (an unexpected-response
error), not assumed to be a feed; an absent Content-Type is a hard
error. -/
theorem fetch_feed_unknown_ct_is_error :
    fetch_feed c6JsonResponse = .ok (.Unknown 200 ("{}")) ∧
    fetch_feed c6NoCtResponse = .error ("no content type found") := by
  exact ⟨rfl, rfl⟩

/-- Claim C6 amended: on a `200`, an absent Content-Type is an error, the
four xml-ish prefixes go to the feed parser, `text/html` goes to the
HTML branch, and every other Content-Type yields the `Unknown`
unexpected-response result — the parser is not attempted. -/
theorem fetch_feed_classification (resp : HttpResponse) (ct : String)
    (h200 : resp.status = 200) (hct : resp.content_type = some ct) :
    (strStartsWith ct ("text/html") = true →
      fetch_feed resp = .ok (.Html resp.bytes resp.location)) ∧
    (strStartsWith ct ("text/html") = false →
      (strStartsWith ct ("text/xml") || strStartsWith ct ("application/rss+xml")
        || strStartsWith ct ("application/atom+xml")
        || strStartsWith ct ("application/xml")) = true →
      fetch_feed resp = .ok (.Feed resp.bytes resp.location)) ∧
    (strStartsWith ct ("text/html") = false →
      (strStartsWith ct ("text/xml") || strStartsWith ct ("application/rss+xml")
        || strStartsWith ct ("application/atom+xml")
        || strStartsWith ct ("application/xml")) = false →
      fetch_feed resp = .ok (.Unknown 200 resp.body_text)) := by
  refine ⟨?_, ?_, ?_⟩ <;> intro hhtml <;> try intro hxml
  · simp [fetch_feed, h200, hct, hhtml]
  · simp [fetch_feed, h200, hct, hhtml, hxml]
  · simp [fetch_feed, h200, hct, hhtml, hxml]

/-- Witness for C6's amended claim at the json response. -/
theorem fetch_feed_classification_witness :
    fetch_feed c6JsonResponse = .ok (.Unknown 200 ("{}")) := by
  exact (fetch_feed_classification c6JsonResponse ("application/json")
    rfl rfl).2.2 (by decide) (by decide)

/-! ## Cursor pagination (db/pg/mod.rs: get_feed_entries lines 245-363,
query_entries lines 365-545)

Both functions run the same shape of query: filter the pool of rows,
add a cursor predicate whose pivot key comes from a subselect over the
whole `entries` table, `ORDER BY coalesce-key dir, id dir`, fetch
`limit + 1` rows, pop the extra row when present, reverse for a `Left`
cursor, then derive `next_id`/`prev_id` from `(has_more, cursor)` —
only when the page has at least two rows. -/

inductive Cursor where
  | left (id : Nat)
  | right (id : Nat)
deriving Repr, DecidableEq

inductive SortOrder where
  | newest
  | oldest
deriving Repr, DecidableEq

structure CursorOutput where
  entries : List EntryRow
  next_id : Option Nat
  prev_id : Option Nat
deriving Repr, DecidableEq

/-- `coalesce(entry_updated_at, published_at, created_at)`: the sort key
of the feed-scoped listing (get_feed_entries). -/
def keyFeedEntries (e : EntryRow) : Int :=
  e.entry_updated_at.getD (e.published_at.getD e.created_at)

/-- `coalesce(published_at, entry_updated_at, created_at)`: the sort key
of the global query (query_entries). -/
def keyQueryEntries (e : EntryRow) : Int :=
  e.published_at.getD (e.entry_updated_at.getD e.created_at)

/-- `(key, id)` of `a` lexicographically strictly below that of `b`. -/
def rankLt (key : EntryRow → Int) (a b : EntryRow) : Prop :=
  key a < key b ∨ (key a = key b ∧ a.id < b.id)

/-- Equal `(key, id)` pair. -/
def rankEq (key : EntryRow → Int) (a b : EntryRow) : Prop :=
  key a = key b ∧ a.id = b.id

instance (key : EntryRow → Int) : DecidableRel (rankLt key) :=
  fun a b =>
    decidable_of_iff (key a < key b ∨ (key a = key b ∧ a.id < b.id)) Iff.rfl

instance (key : EntryRow → Int) : DecidableRel (rankEq key) :=
  fun a b => decidable_of_iff (key a = key b ∧ a.id = b.id) Iff.rfl

def SortOrder.flip : SortOrder → SortOrder
  | .newest => .oldest
  | .oldest => .newest

/-- `ordLt key d a b`: `a` comes strictly before `b` in the output order
of direction `d` (`newest` is descending). -/
def ordLt (key : EntryRow → Int) : SortOrder → EntryRow → EntryRow → Prop
  | .newest, a, b => rankLt key b a
  | .oldest, a, b => rankLt key a b

def ordLe (key : EntryRow → Int) (d : SortOrder) (a b : EntryRow) : Prop :=
  ordLt key d a b ∨ rankEq key a b

instance (key : EntryRow → Int) (d : SortOrder) : DecidableRel (ordLt key d) :=
  fun a b =>
    match d with
    | .newest => inferInstanceAs (Decidable (rankLt key b a))
    | .oldest => inferInstanceAs (Decidable (rankLt key a b))

instance (key : EntryRow → Int) (d : SortOrder) : DecidableRel (ordLe key d) :=
  fun _ _ => inferInstanceAs (Decidable (_ ∨ _))

theorem rankLt_trichotomy (key : EntryRow → Int) (a b : EntryRow) :
    rankLt key a b ∨ rankEq key a b ∨ rankLt key b a := by
  unfold rankLt rankEq
  rcases lt_trichotomy (key a) (key b) with h | h | h
  · exact Or.inl (Or.inl h)
  · rcases Nat.lt_trichotomy a.id b.id with h2 | h2 | h2
    · exact Or.inl (Or.inr ⟨h, h2⟩)
    · exact Or.inr (Or.inl ⟨h, h2⟩)
    · exact Or.inr (Or.inr (Or.inr ⟨h.symm, h2⟩))
  · exact Or.inr (Or.inr (Or.inl h))

theorem rankLt_asymm (key : EntryRow → Int) (a b : EntryRow)
    (h : rankLt key a b) : ¬ rankLt key b a := by
  unfold rankLt at h ⊢
  rcases h with h | ⟨h1, h2⟩ <;> rintro (h3 | ⟨h4, h5⟩) <;> omega

theorem rankLt_trans (key : EntryRow → Int) (a b c : EntryRow)
    (h1 : rankLt key a b) (h2 : rankLt key b c) : rankLt key a c := by
  unfold rankLt at h1 h2 ⊢
  rcases h1 with h1 | ⟨h1, h1'⟩ <;> rcases h2 with h2 | ⟨h2, h2'⟩
  · exact Or.inl (h1.trans h2)
  · exact Or.inl (h2 ▸ h1)
  · exact Or.inl (h1 ▸ h2)
  · exact Or.inr ⟨h1.trans h2, h1'.trans h2'⟩

theorem rankEq_lt_trans (key : EntryRow → Int) (a b c : EntryRow)
    (h1 : rankEq key a b) (h2 : rankLt key b c) : rankLt key a c := by
  unfold rankEq at h1
  unfold rankLt at h2 ⊢
  obtain ⟨hk, hi⟩ := h1
  rcases h2 with h2 | ⟨h2, h2'⟩
  · exact Or.inl (hk ▸ h2)
  · exact Or.inr ⟨hk.trans h2, hi ▸ h2'⟩

theorem lt_rankEq_trans (key : EntryRow → Int) (a b c : EntryRow)
    (h1 : rankLt key a b) (h2 : rankEq key b c) : rankLt key a c := by
  unfold rankEq at h2
  unfold rankLt at h1 ⊢
  obtain ⟨hk, hi⟩ := h2
  rcases h1 with h1 | ⟨h1, h1'⟩
  · exact Or.inl (hk ▸ h1)
  · exact Or.inr ⟨h1.trans hk, hi ▸ h1'⟩

theorem rankEq_symm (key : EntryRow → Int) (a b : EntryRow)
    (h : rankEq key a b) : rankEq key b a := ⟨h.1.symm, h.2.symm⟩

theorem ordLt_asymm (key : EntryRow → Int) (d : SortOrder) (a b : EntryRow)
    (h : ordLt key d a b) : ¬ ordLt key d b a := by
  cases d <;> exact rankLt_asymm key _ _ h

theorem ordLt_irrefl (key : EntryRow → Int) (d : SortOrder) (a : EntryRow) :
    ¬ ordLt key d a a := fun h => ordLt_asymm key d a a h h

theorem ordLt_trans (key : EntryRow → Int) (d : SortOrder) (a b c : EntryRow)
    (h1 : ordLt key d a b) (h2 : ordLt key d b c) : ordLt key d a c := by
  cases d
  · exact rankLt_trans key _ _ _ h2 h1
  · exact rankLt_trans key _ _ _ h1 h2

theorem rankEq_ordLt_trans (key : EntryRow → Int) (d : SortOrder) (a b c : EntryRow)
    (h1 : rankEq key a b) (h2 : ordLt key d b c) : ordLt key d a c := by
  cases d
  · exact lt_rankEq_trans key _ _ _ h2 (rankEq_symm key _ _ h1)
  · exact rankEq_lt_trans key _ _ _ h1 h2

theorem ordLt_rankEq_trans (key : EntryRow → Int) (d : SortOrder) (a b c : EntryRow)
    (h1 : ordLt key d a b) (h2 : rankEq key b c) : ordLt key d a c := by
  cases d
  · exact rankEq_lt_trans key _ _ _ (rankEq_symm key _ _ h2) h1
  · exact lt_rankEq_trans key _ _ _ h1 h2

theorem ordLt_trichotomy (key : EntryRow → Int) (d : SortOrder) (a b : EntryRow) :
    ordLt key d a b ∨ rankEq key a b ∨ ordLt key d b a := by
  cases d
  · rcases rankLt_trichotomy key a b with h | h | h
    · exact Or.inr (Or.inr h)
    · exact Or.inr (Or.inl h)
    · exact Or.inl h
  · exact rankLt_trichotomy key a b

theorem ordLe_ordLt_trans (key : EntryRow → Int) (d : SortOrder) (a b c : EntryRow)
    (h1 : ordLe key d a b) (h2 : ordLt key d b c) : ordLt key d a c := by
  rcases h1 with h1 | h1
  · exact ordLt_trans key d _ _ _ h1 h2
  · exact rankEq_ordLt_trans key d _ _ _ h1 h2

theorem ordLt_ordLe_trans (key : EntryRow → Int) (d : SortOrder) (a b c : EntryRow)
    (h1 : ordLt key d a b) (h2 : ordLe key d b c) : ordLt key d a c := by
  rcases h2 with h2 | h2
  · exact ordLt_trans key d _ _ _ h1 h2
  · exact ordLt_rankEq_trans key d _ _ _ h1 h2

instance (key : EntryRow → Int) (d : SortOrder) : IsTrans EntryRow (ordLe key d) where
  trans a b c h1 h2 := by
    rcases h1 with h1 | h1 <;> rcases h2 with h2 | h2
    · exact Or.inl (ordLt_trans key d _ _ _ h1 h2)
    · exact Or.inl (ordLt_rankEq_trans key d _ _ _ h1 h2)
    · exact Or.inl (rankEq_ordLt_trans key d _ _ _ h1 h2)
    · exact Or.inr ⟨h1.1.trans h2.1, h1.2.trans h2.2⟩

instance (key : EntryRow → Int) (d : SortOrder) : IsTotal EntryRow (ordLe key d) where
  total a b := by
    rcases ordLt_trichotomy key d a b with h | h | h
    · exact Or.inl (Or.inl h)
    · exact Or.inl (Or.inr h)
    · exact Or.inr (Or.inl h)

instance (key : EntryRow → Int) (d : SortOrder) : IsAntisymm EntryRow (ordLt key d) where
  antisymm a b h1 h2 := absurd h2 (ordLt_asymm key d a b h1)

theorem ordLt_flip (key : EntryRow → Int) (d : SortOrder) (a b : EntryRow) :
    ordLt key d.flip a b ↔ ordLt key d b a := by
  cases d <;> exact Iff.rfl

theorem ordLe_flip (key : EntryRow → Int) (d : SortOrder) (a b : EntryRow) :
    ordLe key d.flip a b ↔ ordLe key d b a := by
  unfold ordLe
  rw [ordLt_flip]
  constructor
  · rintro (h | h)
    · exact Or.inl h
    · exact Or.inr (rankEq_symm key _ _ h)
  · rintro (h | h)
    · exact Or.inl h
    · exact Or.inr (rankEq_symm key _ _ h)

/-- The subselect `select coalesce(...) from entries where id = $1`,
resolved to the row it reads. -/
def cursorLookup (all : List EntryRow) (cid : Nat) : Option EntryRow :=
  all.find? (fun r => decide (r.id = cid))

/-- The cursor WHERE clause.  For `Right`, keep rows strictly after the
pivot in the output order; for `Left`, strictly before.  When the pivot
id is absent the subselect is NULL and the SQL comparison is never
true. -/
def cursorPredB (key : EntryRow → Int) (d : SortOrder) (all : List EntryRow)
    (cursor : Option Cursor) (e : EntryRow) : Bool :=
  match cursor with
  | none => true
  | some (.right cid) =>
    match cursorLookup all cid with
    | none => false
    | some pivot => decide (ordLt key d pivot e)
  | some (.left cid) =>
    match cursorLookup all cid with
    | none => false
    | some pivot => decide (ordLt key d e pivot)

/-- A `Left` cursor fetches in the direction opposite to the output
order (results are reversed after the fetch). -/
def fetchDir (d : SortOrder) (cursor : Option Cursor) : SortOrder :=
  match cursor with
  | some (.left _) => d.flip
  | _ => d

/-- `ORDER BY key dir, id dir LIMIT limit+1` over the filtered pool
(`limit` defaults to 20). -/
def fetchedRows (key : EntryRow → Int) (d : SortOrder) (pool all : List EntryRow)
    (cursor : Option Cursor) (limit : Option Nat) : List EntryRow :=
  (List.insertionSort (ordLe key (fetchDir d cursor))
    (pool.filter (cursorPredB key d all cursor))).take (limit.getD 20 + 1)

def hasMoreB (key : EntryRow → Int) (d : SortOrder) (pool all : List EntryRow)
    (cursor : Option Cursor) (limit : Option Nat) : Bool :=
  decide ((fetchedRows key d pool all cursor limit).length = limit.getD 20 + 1)

/-- Pop the extra row when `limit + 1` came back, then reverse for a
`Left` cursor. -/
def pageRows (key : EntryRow → Int) (d : SortOrder) (pool all : List EntryRow)
    (cursor : Option Cursor) (limit : Option Nat) : List EntryRow :=
  let rows := fetchedRows key d pool all cursor limit
  let page0 := if rows.length = limit.getD 20 + 1 then rows.dropLast else rows
  match cursor with
  | some (.left _) => page0.reverse
  | _ => page0

/-- The `(has_more, cursor) → (next_id, prev_id)` table, applied only
when the page has at least two rows (`if let [first, _second, ..]`). -/
def nextPrev (page : List EntryRow) (has_more : Bool) (cursor : Option Cursor) :
    Option Nat × Option Nat :=
  match page, has_more, cursor with
  | e1 :: e2 :: rest, true, none => (some ((e2 :: rest).getLastD e1).id, none)
  | _ :: _ :: _, false, none => (none, none)
  | e1 :: e2 :: rest, true, some _ => (some ((e2 :: rest).getLastD e1).id, some e1.id)
  | e1 :: e2 :: rest, false, some (.left _) =>
    (some ((e2 :: rest).getLastD e1).id, none)
  | e1 :: _ :: _, false, some (.right _) => (none, some e1.id)
  | _, _, _ => (none, none)

def cursorPage (key : EntryRow → Int) (d : SortOrder) (pool all : List EntryRow)
    (cursor : Option Cursor) (limit : Option Nat) : CursorOutput :=
  let page := pageRows key d pool all cursor limit
  let np := nextPrev page (hasMoreB key d pool all cursor limit) cursor
  ⟨page, np.1, np.2⟩

/-- get_feed_entries: the feed-scoped listing, hard-wired to the newest
direction and the `coalesce(entry_updated_at, published_at, created_at)`
key. -/
def get_feed_entries (db : Db) (feed_id : Nat) (cursor : Option Cursor)
    (limit : Option Nat) : CursorOutput :=
  cursorPage keyFeedEntries .newest
    (db.entries.filter (fun e => decide (e.feed_id = feed_id))) db.entries
    cursor limit

structure QueryFeedsFilters where
  limit : Option Nat := none
  query : Option String := none
  feed_id : Option Nat := none
  unread : Option Bool := none
  starred : Option Bool := none
  start : Option Int := none
  end_ : Option Int := none
  sort : Option SortOrder := none

/-- `ilike '%q%'` on title or url: case-insensitive substring match (SQL
pattern metacharacters inside the needle are not modelled). -/
def strContainsCI (hay q : String) : Bool :=
  decide (List.IsInfix (q.toList.map Char.toLower) (hay.toList.map Char.toLower))

def filtersPred (f : QueryFeedsFilters) (e : EntryRow) : Bool :=
  (match f.feed_id with
   | none => true
   | some fid => decide (e.feed_id = fid)) &&
  (match f.query with
   | none => true
   | some q => strContainsCI e.title q || strContainsCI e.url q) &&
  (if f.unread = some true then decide (e.read_at = none) else true) &&
  (if f.starred = some true then decide (e.starred_at ≠ none) else true) &&
  (match f.start with
   | none => true
   | some s => decide (s ≤ keyQueryEntries e)) &&
  (match f.end_ with
   | none => true
   | some t => decide (keyQueryEntries e ≤ t))

/-- query_entries: the global query with its optional filters, sort
direction (default newest) and the
`coalesce(published_at, entry_updated_at, created_at)` key. -/
def query_entries (db : Db) (cursor : Option Cursor)
    (filters : Option QueryFeedsFilters) : CursorOutput :=
  let f := filters.getD {}
  cursorPage keyQueryEntries (f.sort.getD .newest)
    (db.entries.filter (filtersPred f)) db.entries cursor f.limit

theorem cursorPage_entries (key : EntryRow → Int) (d : SortOrder)
    (pool all : List EntryRow) (cursor : Option Cursor) (limit : Option Nat) :
    (cursorPage key d pool all cursor limit).entries =
      pageRows key d pool all cursor limit := rfl

theorem pageRows_sorted (key : EntryRow → Int) (d : SortOrder)
    (pool all : List EntryRow) (cursor : Option Cursor) (limit : Option Nat) :
    List.Sorted (ordLe key d) (pageRows key d pool all cursor limit) := by
  have hs0 : List.Sorted (ordLe key (fetchDir d cursor))
      (fetchedRows key d pool all cursor limit) :=
    List.Pairwise.sublist (List.take_sublist _ _) (List.sorted_insertionSort _ _)
  have hs1 : List.Sorted (ordLe key (fetchDir d cursor))
      (if (fetchedRows key d pool all cursor limit).length = limit.getD 20 + 1 then
        (fetchedRows key d pool all cursor limit).dropLast
      else fetchedRows key d pool all cursor limit) := by
    split
    · exact List.Pairwise.sublist (List.dropLast_sublist _) hs0
    · exact hs0
  unfold pageRows
  cases cursor with
  | none => exact hs1
  | some c =>
    cases c with
    | right i => exact hs1
    | left i =>
      show List.Pairwise (ordLe key d) _
      rw [List.pairwise_reverse]
      refine hs1.imp fun hab => ?_
      exact (ordLe_flip key d _ _).1 hab

def c3E1 : EntryRow :=
  { id := 1, feed_id := 1, published_at := some 10, entry_updated_at := some 1 }

def c3E2 : EntryRow :=
  { id := 2, feed_id := 1, published_at := some 5, entry_updated_at := some 2 }

def c3Db : Db := { entries := [c3E1, c3E2] }

/-- Counterexample to claim C3: the feed-scoped listing orders by
`coalesce(entry_updated_at, published_at, created_at)`, so the page puts
the row with the older `published_at` first — the output is not ordered
by the published-first composite the claim states. -/
theorem get_feed_entries_not_published_first :
    (get_feed_entries c3Db 1 none none).entries = [c3E2, c3E1] ∧
    rankLt keyQueryEntries c3E2 c3E1 := by
  constructor
  · rfl
  · exact Or.inl (by decide)

/-- Claim C3 amended: every feed-scoped page is totally ordered by the
composite `(coalesce(entry_updated_at, published_at, created_at), id)` —
`entry_updated_at` taking precedence — and every global-query page by
`(coalesce(published_at, entry_updated_at, created_at), id)`, each in
the requested direction with newest-first as the default; the two
queries do not share one key. -/
theorem entries_listing_sorted (db : Db) :
    (∀ fid cursor limit, List.Sorted (ordLe keyFeedEntries .newest)
        (get_feed_entries db fid cursor limit).entries) ∧
    (∀ cursor filters, List.Sorted
        (ordLe keyQueryEntries (((filters.getD ({} : QueryFeedsFilters)).sort).getD .newest))
        (query_entries db cursor filters).entries) ∧
    keyFeedEntries ≠ keyQueryEntries := by
  refine ⟨?_, ?_, ?_⟩
  · intro fid cursor limit
    rw [get_feed_entries, cursorPage_entries]
    exact pageRows_sorted _ _ _ _ _ _
  · intro cursor filters
    have he : (query_entries db cursor filters).entries =
        pageRows keyQueryEntries ((filters.getD ({} : QueryFeedsFilters)).sort.getD .newest)
          (db.entries.filter (filtersPred (filters.getD {}))) db.entries cursor
          ((filters.getD ({} : QueryFeedsFilters)).limit) := rfl
    rw [he]
    exact pageRows_sorted _ _ _ _ _ _
  · intro h
    have := congrFun h c3E1
    simp [keyFeedEntries, keyQueryEntries, c3E1] at this

theorem sorted_strict_of_nodup (key : EntryRow → Int) (d : SortOrder)
    (l : List EntryRow) (hnod : (l.map EntryRow.id).Nodup)
    (hs : List.Sorted (ordLe key d) l) : List.Sorted (ordLt key d) l := by
  have hne : l.Pairwise (fun a b => a.id ≠ b.id) := List.pairwise_map.1 hnod
  refine (hs.and hne).imp ?_
  rintro a b ⟨hle, hid⟩
  rcases hle with hlt | heq
  · exact hlt
  · exact absurd heq.2 hid

theorem sortPool_nodup_ids (key : EntryRow → Int) (d : SortOrder)
    (pool : List EntryRow) (hnod : (pool.map EntryRow.id).Nodup) :
    ((List.insertionSort (ordLe key d) pool).map EntryRow.id).Nodup := by
  have hperm := (List.perm_insertionSort (ordLe key d) pool).map EntryRow.id
  exact (hperm.nodup_iff).2 hnod

theorem sortPool_sorted_strict (key : EntryRow → Int) (d : SortOrder)
    (pool : List EntryRow) (hnod : (pool.map EntryRow.id).Nodup) :
    List.Sorted (ordLt key d) (List.insertionSort (ordLe key d) pool) :=
  sorted_strict_of_nodup key d _ (sortPool_nodup_ids key d pool hnod)
    (List.sorted_insertionSort _ _)

/-- Filtering commutes with sorting: the SQL WHERE-then-ORDER-BY result
is the filtered sorted pool. -/
theorem sortPool_filter_eq (key : EntryRow → Int) (d : SortOrder)
    (pool : List EntryRow) (hnod : (pool.map EntryRow.id).Nodup)
    (p : EntryRow → Bool) :
    List.insertionSort (ordLe key d) (pool.filter p) =
      (List.insertionSort (ordLe key d) pool).filter p := by
  have hnodf : ((pool.filter p).map EntryRow.id).Nodup :=
    hnod.sublist ((List.filter_sublist pool).map EntryRow.id)
  have hperm : List.Perm (List.insertionSort (ordLe key d) (pool.filter p))
      ((List.insertionSort (ordLe key d) pool).filter p) := by
    refine (List.perm_insertionSort _ _).trans ?_
    exact ((List.perm_insertionSort (ordLe key d) pool).filter p).symm
  exact List.eq_of_perm_of_sorted hperm
    (sortPool_sorted_strict key d _ hnodf)
    ((sortPool_sorted_strict key d pool hnod).filter p)

theorem decide_ordLt_true {key : EntryRow → Int} {d : SortOrder} {a b : EntryRow}
    (h : ordLt key d a b) : decide (ordLt key d a b) = true := decide_eq_true h

theorem decide_ordLt_false {key : EntryRow → Int} {d : SortOrder} {a b : EntryRow}
    (h : ¬ ordLt key d a b) : decide (ordLt key d a b) = false := decide_eq_false h

/-- Splitting a strictly sorted list at an element: the rows strictly
before it are exactly the prefix, the rows strictly after exactly the
suffix. -/
theorem sorted_filter_split_append (key : EntryRow → Int) (d : SortOrder)
    (pre post : List EntryRow) (pivot : EntryRow)
    (hs : List.Sorted (ordLt key d) (pre ++ pivot :: post)) :
    (pre ++ pivot :: post).filter (fun e => decide (ordLt key d e pivot)) = pre ∧
    (pre ++ pivot :: post).filter (fun e => decide (ordLt key d pivot e)) = post := by
  have hs2 : List.Pairwise (ordLt key d) (pre ++ pivot :: post) := hs
  rw [List.pairwise_append] at hs2
  obtain ⟨hpre, hmid, hcross⟩ := hs2
  rw [List.pairwise_cons] at hmid
  obtain ⟨hafter, _⟩ := hmid
  have hbefore : ∀ a ∈ pre, ordLt key d a pivot :=
    fun a ha => hcross a ha pivot (List.mem_cons_self _ _)
  constructor
  · rw [List.filter_append, List.filter_cons]
    rw [List.filter_eq_self.2 (fun a ha => decide_ordLt_true (hbefore a ha))]
    rw [if_neg (by rw [decide_ordLt_false (ordLt_irrefl key d pivot)]; exact Bool.false_ne_true)]
    rw [List.filter_eq_nil_iff.2 (fun b hb => by
      rw [decide_ordLt_false (ordLt_asymm key d pivot b (hafter b hb))]
      exact Bool.false_ne_true)]
    simp
  · rw [List.filter_append, List.filter_cons]
    rw [List.filter_eq_nil_iff.2 (fun a ha => by
      rw [decide_ordLt_false (ordLt_asymm key d a pivot (hbefore a ha))]
      exact Bool.false_ne_true)]
    rw [if_neg (by rw [decide_ordLt_false (ordLt_irrefl key d pivot)]; exact Bool.false_ne_true)]
    rw [List.filter_eq_self.2 (fun b hb => decide_ordLt_true (hafter b hb))]
    simp

/-- Splitting a strictly sorted list at an arbitrary pivot row (present
or not): before-rows form a prefix, after-rows a suffix, and at most one
row (of equal rank) can sit in between. -/
theorem sorted_filter_split_general (key : EntryRow → Int) (d : SortOrder)
    (pivot : EntryRow) :
    ∀ (S : List EntryRow), List.Sorted (ordLt key d) S →
    ∃ k j, k ≤ j ∧ j ≤ S.length ∧ j ≤ k + 1 ∧
      S.filter (fun e => decide (ordLt key d e pivot)) = S.take k ∧
      S.filter (fun e => decide (ordLt key d pivot e)) = S.drop j := by
  intro S
  induction S with
  | nil => exact fun _ => ⟨0, 0, by simp⟩
  | cons a T ih =>
    intro hs
    rw [List.sorted_cons] at hs
    obtain ⟨ha, hT⟩ := hs
    rcases ordLt_trichotomy key d a pivot with hlt | heq | hgt
    · obtain ⟨k, j, hkj, hjlen, hjk, hbef, haft⟩ := ih hT
      refine ⟨k + 1, j + 1, by omega, ?_, by omega, ?_, ?_⟩
      · simp only [List.length_cons]
        omega
      · rw [List.filter_cons, if_pos (by rw [decide_ordLt_true hlt]), hbef]
        rfl
      · rw [List.filter_cons, if_neg (by
          rw [decide_ordLt_false (ordLt_asymm key d a pivot hlt)]
          exact Bool.false_ne_true), haft]
        rfl
    · have hnotbefore : ¬ ordLt key d a pivot := fun h =>
        ordLt_irrefl key d pivot
          (rankEq_ordLt_trans key d pivot a pivot (rankEq_symm key a pivot heq) h)
      have hnotafter : ¬ ordLt key d pivot a := fun h =>
        ordLt_irrefl key d pivot (ordLt_rankEq_trans key d pivot a pivot h heq)
      have hTafter : ∀ b ∈ T, ordLt key d pivot b := fun b hb =>
        rankEq_ordLt_trans key d pivot a b (rankEq_symm key a pivot heq) (ha b hb)
      refine ⟨0, 1, by omega, by simp, by omega, ?_, ?_⟩
      · rw [List.take_zero, List.filter_cons, if_neg (by
          rw [decide_ordLt_false hnotbefore]; exact Bool.false_ne_true)]
        exact List.filter_eq_nil_iff.2 (fun b hb => by
          rw [decide_ordLt_false (ordLt_asymm key d pivot b (hTafter b hb))]
          exact Bool.false_ne_true)
      · rw [List.filter_cons, if_neg (by
          rw [decide_ordLt_false hnotafter]; exact Bool.false_ne_true)]
        rw [List.filter_eq_self.2 (fun b hb => decide_ordLt_true (hTafter b hb))]
        rfl
    · have hTafter : ∀ b ∈ T, ordLt key d pivot b := fun b hb =>
        ordLt_trans key d pivot a b hgt (ha b hb)
      refine ⟨0, 0, by omega, by simp, by omega, ?_, ?_⟩
      · rw [List.take_zero, List.filter_cons, if_neg (by
          rw [decide_ordLt_false (ordLt_asymm key d pivot a hgt)]
          exact Bool.false_ne_true)]
        exact List.filter_eq_nil_iff.2 (fun b hb => by
          rw [decide_ordLt_false (ordLt_asymm key d pivot b (hTafter b hb))]
          exact Bool.false_ne_true)
      · rw [List.drop_zero, List.filter_cons, if_pos (by rw [decide_ordLt_true hgt])]
        rw [List.filter_eq_self.2 (fun b hb => decide_ordLt_true (hTafter b hb))]

theorem cursorLookup_of_mem (all : List EntryRow) (x : EntryRow)
    (hall : (all.map EntryRow.id).Nodup) (hx : x ∈ all) :
    cursorLookup all x.id = some x := by
  unfold cursorLookup
  cases h : all.find? (fun r => decide (r.id = x.id)) with
  | none =>
    have := List.find?_eq_none.1 h x hx
    simp at this
  | some y =>
    have hid : y.id = x.id := by
      have := List.find?_some h
      simp at this
      exact this
    have hy : y ∈ all := List.mem_of_find?_eq_some h
    rw [List.inj_on_of_nodup_map hall hy hx hid]

theorem take_succ_dropLast {α : Type} (l : List α) (n : Nat)
    (h : n + 1 ≤ l.length) : (l.take (n + 1)).dropLast = l.take n := by
  rw [List.dropLast_eq_take, List.length_take, List.take_take]
  congr 1
  omega

/-- The pop step: fetching `n + 1` rows and popping the extra when it
came back always leaves the first `n`. -/
theorem take_pop_eq {α : Type} (l : List α) (n : Nat) :
    (if (l.take (n + 1)).length = n + 1 then (l.take (n + 1)).dropLast
     else l.take (n + 1)) = l.take n := by
  rw [List.length_take]
  by_cases h : n + 1 ≤ l.length
  · rw [if_pos (by omega), take_succ_dropLast l n h]
  · rw [if_neg (by omega)]
    rw [List.take_of_length_le (by omega), List.take_of_length_le (by omega)]

theorem reverse_take_reverse {α : Type} (l : List α) (n : Nat) :
    ((l.reverse.take n).reverse) = l.drop (l.length - n) := by
  rw [List.take_reverse, List.reverse_reverse]

theorem getLast?_drop_of_ne_nil {α : Type} (l : List α) (m : Nat)
    (h : l.drop m ≠ []) : (l.drop m).getLast? = l.getLast? := by
  conv_rhs => rw [← List.take_append_drop m l]
  rw [List.getLast?_append_of_ne_nil _ h]

theorem pageRows_none_eq (key : EntryRow → Int) (d : SortOrder)
    (pool all : List EntryRow) (limit : Option Nat) :
    fetchedRows key d pool all none limit =
      (List.insertionSort (ordLe key d) pool).take (limit.getD 20 + 1) ∧
    pageRows key d pool all none limit =
      (List.insertionSort (ordLe key d) pool).take (limit.getD 20) := by
  have hfilter : pool.filter (cursorPredB key d all none) = pool :=
    List.filter_eq_self.2 (fun a _ => rfl)
  have hfetch : fetchedRows key d pool all none limit =
      (List.insertionSort (ordLe key d) pool).take (limit.getD 20 + 1) := by
    unfold fetchedRows
    rw [hfilter]
    rfl
  refine ⟨hfetch, ?_⟩
  have hpage : pageRows key d pool all none limit =
      (if (fetchedRows key d pool all none limit).length = limit.getD 20 + 1 then
        (fetchedRows key d pool all none limit).dropLast
      else fetchedRows key d pool all none limit) := rfl
  rw [hpage, hfetch]
  exact take_pop_eq _ _

theorem pageRows_right_eq (key : EntryRow → Int) (d : SortOrder)
    (pool all : List EntryRow) (limit : Option Nat) (cid : Nat) (pivot : EntryRow)
    (hnod : (pool.map EntryRow.id).Nodup)
    (hlook : cursorLookup all cid = some pivot) :
    ∃ j, j ≤ (List.insertionSort (ordLe key d) pool).length ∧
      (List.insertionSort (ordLe key d) pool).filter
          (fun e => decide (ordLt key d pivot e)) =
        (List.insertionSort (ordLe key d) pool).drop j ∧
      (∀ e ∈ (List.insertionSort (ordLe key d) pool).take j, ¬ ordLt key d pivot e) ∧
      fetchedRows key d pool all (some (.right cid)) limit =
        ((List.insertionSort (ordLe key d) pool).drop j).take (limit.getD 20 + 1) ∧
      pageRows key d pool all (some (.right cid)) limit =
        ((List.insertionSort (ordLe key d) pool).drop j).take (limit.getD 20) := by
  set S := List.insertionSort (ordLe key d) pool with hS
  have hfp : pool.filter (cursorPredB key d all (some (.right cid))) =
      pool.filter (fun e => decide (ordLt key d pivot e)) := by
    refine List.filter_congr (fun e _ => ?_)
    have hred : cursorPredB key d all (some (.right cid)) e =
        (match cursorLookup all cid with
         | none => false
         | some pivot => decide (ordLt key d pivot e)) := rfl
    rw [hred, hlook]
  have hsorted := sortPool_sorted_strict key d pool hnod
  obtain ⟨k, j, hkj, hjlen, hjk, hbef, haft⟩ :=
    sorted_filter_split_general key d pivot S hsorted
  have hSnodup : S.Nodup := (sortPool_nodup_ids key d pool hnod).of_map
  have hsortfilter : List.insertionSort (ordLe key d)
      (pool.filter (fun e => decide (ordLt key d pivot e))) = S.drop j := by
    rw [sortPool_filter_eq key d pool hnod, ← hS, haft]
  have hfetch : fetchedRows key d pool all (some (.right cid)) limit =
      (S.drop j).take (limit.getD 20 + 1) := by
    unfold fetchedRows
    rw [hfp]
    show List.take _ (List.insertionSort (ordLe key d) _) = _
    rw [hsortfilter]
  refine ⟨j, hjlen, haft, ?_, hfetch, ?_⟩
  · intro e he hafter
    have hein : e ∈ S.filter (fun x => decide (ordLt key d pivot x)) := by
      refine List.mem_filter.2 ⟨(List.take_sublist _ _).mem he, ?_⟩
      rw [decide_ordLt_true hafter]
    rw [haft] at hein
    exact (List.disjoint_take_drop hSnodup (le_refl j)) he hein
  · have hpage : pageRows key d pool all (some (.right cid)) limit =
        (if (fetchedRows key d pool all (some (.right cid)) limit).length =
            limit.getD 20 + 1 then
          (fetchedRows key d pool all (some (.right cid)) limit).dropLast
        else fetchedRows key d pool all (some (.right cid)) limit) := rfl
    rw [hpage, hfetch]
    exact take_pop_eq _ _

theorem pageRows_left_eq (key : EntryRow → Int) (d : SortOrder)
    (pool all : List EntryRow) (limit : Option Nat) (cid : Nat) (pivot : EntryRow)
    (hnod : (pool.map EntryRow.id).Nodup)
    (hlook : cursorLookup all cid = some pivot) :
    ∃ k, k ≤ (List.insertionSort (ordLe key d) pool).length ∧
      (List.insertionSort (ordLe key d) pool).filter
          (fun e => decide (ordLt key d e pivot)) =
        (List.insertionSort (ordLe key d) pool).take k ∧
      (∀ e ∈ (List.insertionSort (ordLe key d) pool).drop k, ¬ ordLt key d e pivot) ∧
      fetchedRows key d pool all (some (.left cid)) limit =
        (((List.insertionSort (ordLe key d) pool).take k).reverse).take
          (limit.getD 20 + 1) ∧
      pageRows key d pool all (some (.left cid)) limit =
        ((List.insertionSort (ordLe key d) pool).take k).drop (k - limit.getD 20) := by
  set S := List.insertionSort (ordLe key d) pool with hS
  have hfp : pool.filter (cursorPredB key d all (some (.left cid))) =
      pool.filter (fun e => decide (ordLt key d e pivot)) := by
    refine List.filter_congr (fun e _ => ?_)
    have hred : cursorPredB key d all (some (.left cid)) e =
        (match cursorLookup all cid with
         | none => false
         | some pivot => decide (ordLt key d e pivot)) := rfl
    rw [hred, hlook]
  have hsorted := sortPool_sorted_strict key d pool hnod
  obtain ⟨k, j, hkj, hjlen, hjk, hbef, haft⟩ :=
    sorted_filter_split_general key d pivot S hsorted
  have hSnodup : S.Nodup := (sortPool_nodup_ids key d pool hnod).of_map
  have hnodf : ((pool.filter (fun e => decide (ordLt key d e pivot))).map
      EntryRow.id).Nodup :=
    hnod.sublist ((List.filter_sublist pool).map EntryRow.id)
  have hsortflip : List.insertionSort (ordLe key (SortOrder.flip d))
      (pool.filter (fun e => decide (ordLt key d e pivot))) =
      (S.take k).reverse := by
    have hperm : List.Perm
        (List.insertionSort (ordLe key (SortOrder.flip d))
          (pool.filter (fun e => decide (ordLt key d e pivot))))
        ((S.take k).reverse) := by
      refine (List.perm_insertionSort _ _).trans ?_
      refine (List.Perm.trans ?_ (List.reverse_perm _).symm)
      rw [← hbef]
      exact ((List.perm_insertionSort (ordLe key d) pool).filter _).symm
    have hsflip1 : List.Sorted (ordLt key (SortOrder.flip d))
        (List.insertionSort (ordLe key (SortOrder.flip d))
          (pool.filter (fun e => decide (ordLt key d e pivot)))) :=
      sortPool_sorted_strict key (SortOrder.flip d) _ hnodf
    have hsflip2 : List.Sorted (ordLt key (SortOrder.flip d)) ((S.take k).reverse) := by
      show List.Pairwise (ordLt key (SortOrder.flip d)) _
      rw [List.pairwise_reverse]
      have htake : List.Sorted (ordLt key d) (S.take k) :=
        List.Pairwise.sublist (List.take_sublist _ _) hsorted
      refine htake.imp fun hab => ?_
      exact (ordLt_flip key d _ _).2 hab
    exact List.eq_of_perm_of_sorted hperm hsflip1 hsflip2
  have hfetch : fetchedRows key d pool all (some (.left cid)) limit =
      ((S.take k).reverse).take (limit.getD 20 + 1) := by
    unfold fetchedRows
    rw [hfp]
    show List.take _ (List.insertionSort (ordLe key (SortOrder.flip d)) _) = _
    rw [hsortflip]
  have hklen : k ≤ S.length := le_trans hkj hjlen
  refine ⟨k, hklen, hbef, ?_, hfetch, ?_⟩
  · intro e he hbefore
    have hein : e ∈ S.filter (fun x => decide (ordLt key d x pivot)) := by
      refine List.mem_filter.2 ⟨(List.drop_sublist _ _).mem he, ?_⟩
      rw [decide_ordLt_true hbefore]
    rw [hbef] at hein
    exact (List.disjoint_take_drop hSnodup (le_refl k)) hein he
  · have hpage : pageRows key d pool all (some (.left cid)) limit =
        ((if (fetchedRows key d pool all (some (.left cid)) limit).length =
            limit.getD 20 + 1 then
          (fetchedRows key d pool all (some (.left cid)) limit).dropLast
        else fetchedRows key d pool all (some (.left cid)) limit)).reverse := rfl
    rw [hpage, hfetch, take_pop_eq]
    rw [reverse_take_reverse]
    congr 1
    rw [List.length_take]
    omega

theorem getLast?_cons_cons_eq {α : Type} (e1 e2 : α) (rest : List α) :
    (e1 :: e2 :: rest).getLast? = some ((e2 :: rest).getLastD e1) := by
  rw [List.getLast?_cons, List.getLastD_eq_getLast?]

theorem mem_of_getLast?_eq {α : Type} {l : List α} {a : α}
    (h : l.getLast? = some a) : a ∈ l := by
  obtain ⟨hne, rfl⟩ := List.mem_getLast?_eq_getLast h
  exact List.getLast_mem hne

theorem head?_take_of_pos {α : Type} (l : List α) (n : Nat) (hn : 1 ≤ n) :
    (l.take n).head? = l.head? := by
  cases l with
  | nil => simp
  | cons a t =>
    cases n with
    | zero => omega
    | succ m => simp

theorem nextPrev_next_some (page : List EntryRow) (hm : Bool)
    (cur : Option Cursor) (c : Nat)
    (h : (nextPrev page hm cur).1 = some c) :
    2 ≤ page.length ∧ (∃ lastRow, page.getLast? = some lastRow ∧ c = lastRow.id) ∧
      (hm = true ∨ ∃ i, cur = some (.left i)) := by
  match page, hm, cur with
  | [], hm, cur => simp [nextPrev] at h
  | [e1], hm, cur =>
    rcases hm <;> rcases cur with _ | ⟨i⟩ | ⟨i⟩ <;> simp [nextPrev] at h
  | e1 :: e2 :: rest, true, none =>
    simp [nextPrev] at h
    refine ⟨by show 2 ≤ rest.length + 1 + 1; omega, ⟨(e2 :: rest).getLastD e1, getLast?_cons_cons_eq e1 e2 rest, h.symm⟩, Or.inl rfl⟩
  | e1 :: e2 :: rest, false, none => simp [nextPrev] at h
  | e1 :: e2 :: rest, true, some cc =>
    simp [nextPrev] at h
    refine ⟨by show 2 ≤ rest.length + 1 + 1; omega, ⟨(e2 :: rest).getLastD e1, getLast?_cons_cons_eq e1 e2 rest, h.symm⟩, Or.inl rfl⟩
  | e1 :: e2 :: rest, false, some (.left i) =>
    simp [nextPrev] at h
    refine ⟨by show 2 ≤ rest.length + 1 + 1; omega, ⟨(e2 :: rest).getLastD e1, getLast?_cons_cons_eq e1 e2 rest, h.symm⟩, Or.inr ⟨i, rfl⟩⟩
  | e1 :: e2 :: rest, false, some (.right i) => simp [nextPrev] at h

theorem nextPrev_prev_some (page : List EntryRow) (hm : Bool)
    (cur : Option Cursor) (p : Nat)
    (h : (nextPrev page hm cur).2 = some p) :
    2 ≤ page.length ∧ (∃ firstRow, page.head? = some firstRow ∧ p = firstRow.id) ∧
      (∃ cc, cur = some cc) := by
  match page, hm, cur with
  | [], hm, cur => simp [nextPrev] at h
  | [e1], hm, cur =>
    rcases hm <;> rcases cur with _ | ⟨i⟩ | ⟨i⟩ <;> simp [nextPrev] at h
  | e1 :: e2 :: rest, true, none => simp [nextPrev] at h
  | e1 :: e2 :: rest, false, none => simp [nextPrev] at h
  | e1 :: e2 :: rest, true, some cc =>
    simp [nextPrev] at h
    exact ⟨by show 2 ≤ rest.length + 1 + 1; omega, ⟨e1, rfl, h.symm⟩, cc, rfl⟩
  | e1 :: e2 :: rest, false, some (.left i) => simp [nextPrev] at h
  | e1 :: e2 :: rest, false, some (.right i) =>
    simp [nextPrev] at h
    exact ⟨by show 2 ≤ rest.length + 1 + 1; omega, ⟨e1, rfl, h.symm⟩, .right i, rfl⟩

theorem pageRows_of_filter_nil (key : EntryRow → Int) (d : SortOrder)
    (pool all : List EntryRow) (cursor : Option Cursor) (limit : Option Nat)
    (h : pool.filter (cursorPredB key d all cursor) = []) :
    pageRows key d pool all cursor limit = [] := by
  have hfetch : fetchedRows key d pool all cursor limit = [] := by
    unfold fetchedRows
    rw [h]
    rfl
  have hpage0 : (if (fetchedRows key d pool all cursor limit).length =
      limit.getD 20 + 1 then (fetchedRows key d pool all cursor limit).dropLast
      else fetchedRows key d pool all cursor limit) = [] := by
    rw [hfetch]
    simp
  show (match cursor with
    | some (.left _) =>
      (if (fetchedRows key d pool all cursor limit).length = limit.getD 20 + 1 then
        (fetchedRows key d pool all cursor limit).dropLast
      else fetchedRows key d pool all cursor limit).reverse
    | _ =>
      (if (fetchedRows key d pool all cursor limit).length = limit.getD 20 + 1 then
        (fetchedRows key d pool all cursor limit).dropLast
      else fetchedRows key d pool all cursor limit)) = []
  rcases cursor with _ | ⟨i⟩ | ⟨i⟩ <;> simp [hpage0]

theorem filter_nil_of_no_pivot_right (key : EntryRow → Int) (d : SortOrder)
    (pool all : List EntryRow) (cid : Nat)
    (hlk : cursorLookup all cid = none) :
    pool.filter (cursorPredB key d all (some (.right cid))) = [] := by
  refine List.filter_eq_nil_iff.2 (fun e _ => ?_)
  have hred : cursorPredB key d all (some (.right cid)) e =
      (match cursorLookup all cid with
       | none => false
       | some pivot => decide (ordLt key d pivot e)) := rfl
  rw [hred, hlk]
  simp

theorem filter_nil_of_no_pivot_left (key : EntryRow → Int) (d : SortOrder)
    (pool all : List EntryRow) (cid : Nat)
    (hlk : cursorLookup all cid = none) :
    pool.filter (cursorPredB key d all (some (.left cid))) = [] := by
  refine List.filter_eq_nil_iff.2 (fun e _ => ?_)
  have hred : cursorPredB key d all (some (.left cid)) e =
      (match cursorLookup all cid with
       | none => false
       | some pivot => decide (ordLt key d e pivot)) := rfl
  rw [hred, hlk]
  simp

/-- In a strictly sorted list nothing comes after the last element. -/
theorem sorted_getLast?_max (key : EntryRow → Int) (d : SortOrder)
    (S : List EntryRow) (x : EntryRow)
    (hs : List.Sorted (ordLt key d) S) (hx : S.getLast? = some x) :
    ∀ e ∈ S, ¬ ordLt key d x e := by
  intro e he hlt
  have hsplit : S.dropLast ++ [x] = S := List.dropLast_append_getLast? x hx
  have hs2 : List.Pairwise (ordLt key d) (S.dropLast ++ [x]) := by rw [hsplit]; exact hs
  rw [List.pairwise_append] at hs2
  obtain ⟨_, _, hcross⟩ := hs2
  rw [← hsplit] at he
  rcases List.mem_append.1 he with he | he
  · exact ordLt_asymm key d _ _ (hcross e he x (by simp)) hlt
  · rw [List.mem_singleton.1 he] at hlt
    exact ordLt_irrefl key d x hlt

/-- In a strictly sorted list nothing comes before the head. -/
theorem sorted_head?_min (key : EntryRow → Int) (d : SortOrder)
    (S : List EntryRow) (x : EntryRow)
    (hs : List.Sorted (ordLt key d) S) (hx : S.head? = some x) :
    ∀ e ∈ S, ¬ ordLt key d e x := by
  intro e he hlt
  cases S with
  | nil => simp at hx
  | cons a T =>
    have hax : a = x := by simpa using hx
    rw [List.sorted_cons] at hs
    rcases List.mem_cons.1 he with rfl | he2
    · rw [hax] at hlt
      exact ordLt_irrefl key d x hlt
    · exact absurd (hax ▸ hs.1 e he2) (ordLt_asymm key d e x hlt)

theorem exists_cons_cons_of_two_le {α : Type} (l : List α) (h : 2 ≤ l.length) :
    ∃ a b t, l = a :: b :: t := by
  match l with
  | [] => simp at h
  | [a] => simp at h
  | a :: b :: t => exact ⟨a, b, t, rfl⟩

/-- Every page whose `next_id` is set is a window of the sorted pool
that ends at the row carrying that id. -/
theorem next_id_window (key : EntryRow → Int) (d : SortOrder)
    (pool all : List EntryRow) (q : Option Cursor) (limit : Option Nat) (c : Nat)
    (hall : (all.map EntryRow.id).Nodup)
    (hsub : List.Sublist pool all)
    (hnext : (cursorPage key d pool all q limit).next_id = some c) :
    ∃ n crow, n ≤ (List.insertionSort (ordLe key d) pool).length ∧
      ((List.insertionSort (ordLe key d) pool).take n).getLast? = some crow ∧
      crow.id = c ∧
      (cursorPage key d pool all q limit).entries =
        ((List.insertionSort (ordLe key d) pool).take n).drop (n - limit.getD 20) ∧
      2 ≤ (cursorPage key d pool all q limit).entries.length := by
  have hpoolids : (pool.map EntryRow.id).Nodup := hall.sublist (hsub.map EntryRow.id)
  have hnext2 : (nextPrev (pageRows key d pool all q limit)
      (hasMoreB key d pool all q limit) q).1 = some c := hnext
  obtain ⟨hlen2, ⟨lastRow, hlast, hcid⟩, hmor⟩ :=
    nextPrev_next_some _ _ _ _ hnext2
  have hentpage : (cursorPage key d pool all q limit).entries =
      pageRows key d pool all q limit := rfl
  cases q with
  | none =>
    obtain ⟨hfetch, hpage⟩ := pageRows_none_eq key d pool all limit
    rcases hmor with hhm | ⟨i, hq⟩
    · have hflen : (fetchedRows key d pool all none limit).length = limit.getD 20 + 1 := by
        have := of_decide_eq_true hhm
        exact this
      rw [hfetch, List.length_take] at hflen
      have hSlen : limit.getD 20 + 1 ≤ (List.insertionSort (ordLe key d) pool).length := by omega
      refine ⟨limit.getD 20, lastRow, by omega, ?_, hcid.symm, ?_, ?_⟩
      · rw [← hpage]
        exact hlast
      · rw [hentpage, hpage, Nat.sub_self, List.drop_zero]
      · rw [hentpage]
        exact hlen2
    · cases hq
  | some cur =>
    cases cur with
    | right cid =>
      cases hlk : cursorLookup all cid with
      | none =>
        have hnil : pageRows key d pool all (some (.right cid)) limit = [] :=
          pageRows_of_filter_nil key d pool all _ limit
            (filter_nil_of_no_pivot_right key d pool all cid hlk)
        rw [hnil] at hlen2
        simp at hlen2
      | some pivot =>
        obtain ⟨j, hjlen, hjfilter, hjtake, hjfetch, hjpage⟩ :=
          pageRows_right_eq key d pool all limit cid pivot hpoolids hlk
        have hhm : hasMoreB key d pool all (some (.right cid)) limit = true := by
          rcases hmor with hhm | ⟨i, hq⟩
          · exact hhm
          · cases hq
        have hflen : (fetchedRows key d pool all (some (.right cid)) limit).length =
            limit.getD 20 + 1 := of_decide_eq_true hhm
        rw [hjfetch, List.length_take, List.length_drop] at hflen
        have hwindow : pageRows key d pool all (some (.right cid)) limit =
            ((List.insertionSort (ordLe key d) pool).take (j + limit.getD 20)).drop ((j + limit.getD 20) - limit.getD 20) := by
          have h1 : (j + limit.getD 20) - limit.getD 20 = j := by omega
          have h2 : (j + limit.getD 20) - j = limit.getD 20 := by omega
          rw [hjpage, h1, List.drop_take, h2]
        have hne : pageRows key d pool all (some (.right cid)) limit ≠ [] := by
          intro hcontra
          rw [hcontra] at hlen2
          simp at hlen2
        refine ⟨j + limit.getD 20, lastRow, by omega, ?_, hcid.symm, ?_, ?_⟩
        · rw [← getLast?_drop_of_ne_nil ((List.insertionSort (ordLe key d) pool).take (j + limit.getD 20)) ((j + limit.getD 20) - limit.getD 20)
            (hwindow ▸ hne)]
          rw [← hwindow]
          exact hlast
        · rw [hentpage, hwindow]
        · rw [hentpage]
          exact hlen2
    | left cid =>
      cases hlk : cursorLookup all cid with
      | none =>
        have hnil : pageRows key d pool all (some (.left cid)) limit = [] :=
          pageRows_of_filter_nil key d pool all _ limit
            (filter_nil_of_no_pivot_left key d pool all cid hlk)
        rw [hnil] at hlen2
        simp at hlen2
      | some pivot =>
        obtain ⟨k, hklen, hkfilter, hkdrop, hkfetch, hkpage⟩ :=
          pageRows_left_eq key d pool all limit cid pivot hpoolids hlk
        have hne : pageRows key d pool all (some (.left cid)) limit ≠ [] := by
          intro hcontra
          rw [hcontra] at hlen2
          simp at hlen2
        refine ⟨k, lastRow, hklen, ?_, hcid.symm, ?_, ?_⟩
        · rw [← getLast?_drop_of_ne_nil ((List.insertionSort (ordLe key d) pool).take k) (k - limit.getD 20) (hkpage ▸ hne)]
          rw [← hkpage]
          exact hlast
        · rw [hentpage, hkpage]
        · rw [hentpage]
          exact hlen2

def c4E1 : EntryRow := { id := 1, feed_id := 1, published_at := some 30 }

def c4E2 : EntryRow := { id := 2, feed_id := 1, published_at := some 20 }

def c4E3 : EntryRow := { id := 3, feed_id := 1, published_at := some 10 }

def c4Db : Db := { entries := [c4E1, c4E2, c4E3] }

/-- Counterexample to claim C4: a page fetched with `Right(1)` and
`limit = 1` has `has_more` (row `c4E3` still lies forward and row `c4E1`
lies backward, as the last two conjuncts witness), yet both `next_id`
and `prev_id` come back `null` because the page holds a single row — so
`Left(P.prev_id)` cannot be issued and `next_id` is not the last row's
id although forward pagination can continue. -/
theorem get_feed_entries_single_row_page_loses_cursors :
    (get_feed_entries c4Db 1 (some (.right 1)) (some 1)).entries = [c4E2] ∧
    (get_feed_entries c4Db 1 (some (.right 1)) (some 1)).next_id = none ∧
    (get_feed_entries c4Db 1 (some (.right 1)) (some 1)).prev_id = none ∧
    (get_feed_entries c4Db 1 (some (.right 2)) (some 1)).entries = [c4E3] ∧
    (get_feed_entries c4Db 1 (some (.left 2)) (some 1)).entries = [c4E1] := by
  exact ⟨rfl, rfl, rfl, rfl, rfl⟩

/-- Claim C4 amended: over a fixed dataset, whenever a page's `next_id`
is set, following `Right(next_id)` and then `Left` of that page's
`prev_id` (when set) reproduces the first page's contents in the same
order; and whenever a page has at least two rows, `next_id` is the last
row's id whenever it is set and forward pagination can continue (a pool
row ranks strictly after the last row) only with `next_id` set, and
symmetrically `prev_id` is the first row's id whenever it is set and a
strictly earlier pool row forces `prev_id` to be set.  Pages with fewer
than two rows surface no cursors at all (the counterexample). -/
theorem cursor_pagination_roundtrip (key : EntryRow → Int) (d : SortOrder)
    (pool all : List EntryRow) (limit : Option Nat)
    (hall : (all.map EntryRow.id).Nodup)
    (hsub : List.Sublist pool all) :
    (∀ q c p, (cursorPage key d pool all q limit).next_id = some c →
      (cursorPage key d pool all (some (.right c)) limit).prev_id = some p →
      (cursorPage key d pool all (some (.left p)) limit).entries =
        (cursorPage key d pool all q limit).entries) ∧
    (∀ cursor,
      2 ≤ (cursorPage key d pool all cursor limit).entries.length →
      (∀ i, (cursorPage key d pool all cursor limit).next_id = some i →
        ∃ lastRow, (cursorPage key d pool all cursor limit).entries.getLast? =
          some lastRow ∧ i = lastRow.id) ∧
      (∀ i, (cursorPage key d pool all cursor limit).prev_id = some i →
        ∃ firstRow, (cursorPage key d pool all cursor limit).entries.head? =
          some firstRow ∧ i = firstRow.id) ∧
      ((∃ e ∈ pool, ∃ lastRow,
          (cursorPage key d pool all cursor limit).entries.getLast? = some lastRow ∧
          ordLt key d lastRow e) →
        (cursorPage key d pool all cursor limit).next_id ≠ none) ∧
      ((∃ e ∈ pool, ∃ firstRow,
          (cursorPage key d pool all cursor limit).entries.head? = some firstRow ∧
          ordLt key d e firstRow) →
        (cursorPage key d pool all cursor limit).prev_id ≠ none)) := by
  have hpoolids : (pool.map EntryRow.id).Nodup := hall.sublist (hsub.map EntryRow.id)
  have hsorted := sortPool_sorted_strict key d pool hpoolids
  have hperm := List.perm_insertionSort (ordLe key d) pool
  constructor
  · intro q c p hnext hprev
    obtain ⟨n, crow, hn, hcrowlast, hcrowid, hQent, hQlen⟩ :=
      next_id_window key d pool all q limit c hall hsub hnext
    have hcrowS : crow ∈ List.insertionSort (ordLe key d) pool :=
      (List.take_sublist n _).subset (mem_of_getLast?_eq hcrowlast)
    have hcrowAll : crow ∈ all := hsub.subset (hperm.mem_iff.1 hcrowS)
    have hlookc : cursorLookup all c = some crow := by
      rw [← hcrowid]
      exact cursorLookup_of_mem all crow hall hcrowAll
    have hsplit : ((List.insertionSort (ordLe key d) pool).take n).dropLast ++
        crow :: (List.insertionSort (ordLe key d) pool).drop n =
        List.insertionSort (ordLe key d) pool := by
      have h1 : ((List.insertionSort (ordLe key d) pool).take n).dropLast ++ [crow] =
          (List.insertionSort (ordLe key d) pool).take n :=
        List.dropLast_append_getLast? crow hcrowlast
      calc ((List.insertionSort (ordLe key d) pool).take n).dropLast ++
              crow :: (List.insertionSort (ordLe key d) pool).drop n
          = (((List.insertionSort (ordLe key d) pool).take n).dropLast ++ [crow]) ++
              (List.insertionSort (ordLe key d) pool).drop n := by
                rw [List.append_assoc]
                rfl
        _ = (List.insertionSort (ordLe key d) pool).take n ++
              (List.insertionSort (ordLe key d) pool).drop n := by rw [h1]
        _ = List.insertionSort (ordLe key d) pool := List.take_append_drop n _
    have hsorted2 : List.Sorted (ordLt key d)
        (((List.insertionSort (ordLe key d) pool).take n).dropLast ++
          crow :: (List.insertionSort (ordLe key d) pool).drop n) := by
      rw [hsplit]
      exact hsorted
    have hafter_eq : (List.insertionSort (ordLe key d) pool).filter
        (fun e => decide (ordLt key d crow e)) =
        (List.insertionSort (ordLe key d) pool).drop n := by
      conv_lhs => rw [← hsplit]
      rw [(sorted_filter_split_append key d _ _ crow hsorted2).2]
    obtain ⟨j2, hj2len, hj2filter, hj2take, hj2fetch, hj2page⟩ :=
      pageRows_right_eq key d pool all limit c crow hpoolids hlookc
    have hdropeq : (List.insertionSort (ordLe key d) pool).drop j2 =
        (List.insertionSort (ordLe key d) pool).drop n := by
      rw [← hj2filter, hafter_eq]
    have hPpage : pageRows key d pool all (some (.right c)) limit =
        ((List.insertionSort (ordLe key d) pool).drop n).take (limit.getD 20) := by
      rw [hj2page, hdropeq]
    have hprev2 : (nextPrev (pageRows key d pool all (some (.right c)) limit)
        (hasMoreB key d pool all (some (.right c)) limit) (some (.right c))).2 =
        some p := hprev
    obtain ⟨hPlen, ⟨frow, hfhead, hfid⟩, _⟩ := nextPrev_prev_some _ _ _ _ hprev2
    rw [hPpage] at hPlen hfhead
    cases hdn : (List.insertionSort (ordLe key d) pool).drop n with
    | nil =>
      rw [hdn] at hPlen
      simp at hPlen
    | cons f2 t2 =>
      rw [hdn] at hPlen hfhead
      have hL2 : 2 ≤ limit.getD 20 := by
        have := List.length_take (limit.getD 20) (f2 :: t2)
        omega
      have hf2 : frow = f2 := by
        rw [head?_take_of_pos _ _ (by omega)] at hfhead
        exact (Option.some.inj hfhead).symm
      have ht2 : t2 = (List.insertionSort (ordLe key d) pool).drop (n + 1) := by
        have hdd : List.drop 1 ((List.insertionSort (ordLe key d) pool).drop n) =
            (List.insertionSort (ordLe key d) pool).drop (n + 1) :=
          List.drop_drop 1 n _
        rw [hdn] at hdd
        rw [← hdd]
        rfl
      have hsplit2 : (List.insertionSort (ordLe key d) pool).take n ++
          f2 :: (List.insertionSort (ordLe key d) pool).drop (n + 1) =
          List.insertionSort (ordLe key d) pool := by
        rw [← ht2, ← hdn]
        exact List.take_append_drop n _
      have hf2S : f2 ∈ List.insertionSort (ordLe key d) pool := by
        rw [← hsplit2]
        exact List.mem_append.2 (Or.inr (List.mem_cons_self _ _))
      have hlookp : cursorLookup all p = some f2 := by
        rw [hfid, hf2]
        exact cursorLookup_of_mem all f2 hall (hsub.subset (hperm.mem_iff.1 hf2S))
      obtain ⟨k4, hk4len, hk4filter, hk4drop, hk4fetch, hk4page⟩ :=
        pageRows_left_eq key d pool all limit p f2 hpoolids hlookp
      have hsorted3 : List.Sorted (ordLt key d)
          ((List.insertionSort (ordLe key d) pool).take n ++
            f2 :: (List.insertionSort (ordLe key d) pool).drop (n + 1)) := by
        rw [hsplit2]
        exact hsorted
      have hbefore_eq : (List.insertionSort (ordLe key d) pool).filter
          (fun e => decide (ordLt key d e f2)) =
          (List.insertionSort (ordLe key d) pool).take n := by
        conv_lhs => rw [← hsplit2]
        rw [(sorted_filter_split_append key d _ _ f2 hsorted3).1]
      have htakeeq : (List.insertionSort (ordLe key d) pool).take k4 =
          (List.insertionSort (ordLe key d) pool).take n := by
        rw [← hk4filter, hbefore_eq]
      have hk4n : k4 = n := by
        have hh := congrArg List.length htakeeq
        rw [List.length_take, List.length_take] at hh
        omega
      show pageRows key d pool all (some (.left p)) limit = _
      rw [hk4page, hk4n, hQent]
  · intro cursor hlen
    have hentpage : (cursorPage key d pool all cursor limit).entries =
        pageRows key d pool all cursor limit := rfl
    have hnp : (cursorPage key d pool all cursor limit).next_id =
        (nextPrev (pageRows key d pool all cursor limit)
          (hasMoreB key d pool all cursor limit) cursor).1 := rfl
    have hpv : (cursorPage key d pool all cursor limit).prev_id =
        (nextPrev (pageRows key d pool all cursor limit)
          (hasMoreB key d pool all cursor limit) cursor).2 := rfl
    rw [hentpage] at hlen
    obtain ⟨e1, e2, rest, hpp⟩ := exists_cons_cons_of_two_le _ hlen
    refine ⟨?_, ?_, ?_, ?_⟩
    · intro i hi
      rw [hnp] at hi
      obtain ⟨_, ⟨lastRow, hl, hid⟩, _⟩ := nextPrev_next_some _ _ _ _ hi
      exact ⟨lastRow, by rw [hentpage]; exact hl, hid⟩
    · intro i hi
      rw [hpv] at hi
      obtain ⟨_, ⟨firstRow, hh, hid⟩, _⟩ := nextPrev_prev_some _ _ _ _ hi
      exact ⟨firstRow, by rw [hentpage]; exact hh, hid⟩
    · rintro ⟨e, hepool, lastRow, hlast, hafter⟩
      rw [hentpage] at hlast
      have heS : e ∈ List.insertionSort (ordLe key d) pool := hperm.mem_iff.2 hepool
      rw [hnp]
      cases hhm : hasMoreB key d pool all cursor limit with
      | true =>
        rw [hpp]
        rcases cursor with _ | ⟨i⟩ | ⟨i⟩ <;> simp [nextPrev]
      | false =>
        rcases cursor with _ | ⟨i⟩ | ⟨i⟩
        · obtain ⟨hfetch, hpage⟩ := pageRows_none_eq key d pool all limit
          have hflen : ¬ ((fetchedRows key d pool all none limit).length =
              limit.getD 20 + 1) := of_decide_eq_false hhm
          rw [hfetch, List.length_take] at hflen
          have hSshort : (List.insertionSort (ordLe key d) pool).length ≤
              limit.getD 20 := by omega
          have hpageS : pageRows key d pool all none limit =
              List.insertionSort (ordLe key d) pool := by
            rw [hpage]
            exact List.take_of_length_le hSshort
          rw [hpageS] at hlast
          exact absurd hafter (sorted_getLast?_max key d _ lastRow hsorted hlast e heS)
        · rw [hpp]
          simp [nextPrev]
        · cases hlk : cursorLookup all i with
          | none =>
            have hnil : pageRows key d pool all (some (.right i)) limit = [] :=
              pageRows_of_filter_nil key d pool all _ limit
                (filter_nil_of_no_pivot_right key d pool all i hlk)
            rw [hnil] at hpp
            cases hpp
          | some pivot =>
            obtain ⟨j, hjlen, hjfilter, hjtake, hjfetch, hjpage⟩ :=
              pageRows_right_eq key d pool all limit i pivot hpoolids hlk
            have hflen : ¬ ((fetchedRows key d pool all (some (.right i)) limit).length =
                limit.getD 20 + 1) := of_decide_eq_false hhm
            rw [hjfetch, List.length_take, List.length_drop] at hflen
            have hshort : ((List.insertionSort (ordLe key d) pool).drop j).length ≤
                limit.getD 20 := by
              rw [List.length_drop]
              omega
            have hpageD : pageRows key d pool all (some (.right i)) limit =
                (List.insertionSort (ordLe key d) pool).drop j := by
              rw [hjpage]
              exact List.take_of_length_le hshort
            rw [hpageD] at hlast hpp
            have hne : (List.insertionSort (ordLe key d) pool).drop j ≠ [] := by
              rw [hpp]
              exact List.cons_ne_nil _ _
            rw [getLast?_drop_of_ne_nil _ j hne] at hlast
            exact absurd hafter (sorted_getLast?_max key d _ lastRow hsorted hlast e heS)
    · rintro ⟨e, hepool, firstRow, hfirst, hbefore⟩
      rw [hentpage] at hfirst
      have heS : e ∈ List.insertionSort (ordLe key d) pool := hperm.mem_iff.2 hepool
      rw [hpv]
      rcases cursor with _ | ⟨i⟩ | ⟨i⟩
      · obtain ⟨hfetch, hpage⟩ := pageRows_none_eq key d pool all limit
        have hL1 : 1 ≤ limit.getD 20 := by
          rw [hpage, List.length_take] at hlen
          omega
        rw [hpage, head?_take_of_pos _ _ hL1] at hfirst
        exact absurd hbefore (sorted_head?_min key d _ firstRow hsorted hfirst e heS)
      · cases hhm : hasMoreB key d pool all (some (.left i)) limit with
        | true =>
          rw [hpp]
          simp [nextPrev]
        | false =>
          cases hlk : cursorLookup all i with
          | none =>
            have hnil : pageRows key d pool all (some (.left i)) limit = [] :=
              pageRows_of_filter_nil key d pool all _ limit
                (filter_nil_of_no_pivot_left key d pool all i hlk)
            rw [hnil] at hpp
            cases hpp
          | some pivot =>
            obtain ⟨k, hklen, hkfilter, hkdrop, hkfetch, hkpage⟩ :=
              pageRows_left_eq key d pool all limit i pivot hpoolids hlk
            have hflen : ¬ ((fetchedRows key d pool all (some (.left i)) limit).length =
                limit.getD 20 + 1) := of_decide_eq_false hhm
            rw [hkfetch, List.length_take, List.length_reverse, List.length_take]
              at hflen
            have hkL : k ≤ limit.getD 20 := by omega
            have hpageT : pageRows key d pool all (some (.left i)) limit =
                (List.insertionSort (ordLe key d) pool).take k := by
              rw [hkpage]
              have : k - limit.getD 20 = 0 := by omega
              rw [this, List.drop_zero]
            have hk1 : 1 ≤ k := by
              have hlp : (pageRows key d pool all (some (.left i)) limit).length =
                  (e1 :: e2 :: rest).length := congrArg List.length hpp
              rw [hpageT, List.length_take] at hlp
              simp only [List.length_cons] at hlp
              omega
            rw [hpageT, head?_take_of_pos _ _ hk1] at hfirst
            exact absurd hbefore (sorted_head?_min key d _ firstRow hsorted hfirst e heS)
      · rw [hpp]
        cases hhm : hasMoreB key d pool all (some (.right i)) limit <;> simp [nextPrev]

theorem cursor_pagination_roundtrip_witness :
    ((c4Db.entries.map EntryRow.id).Nodup ∧
      List.Sublist c4Db.entries c4Db.entries) ∧
    ((∀ q c p,
        (cursorPage keyFeedEntries SortOrder.newest c4Db.entries c4Db.entries q
          (some 2)).next_id = some c →
        (cursorPage keyFeedEntries SortOrder.newest c4Db.entries c4Db.entries
          (some (.right c)) (some 2)).prev_id = some p →
        (cursorPage keyFeedEntries SortOrder.newest c4Db.entries c4Db.entries
          (some (.left p)) (some 2)).entries =
          (cursorPage keyFeedEntries SortOrder.newest c4Db.entries c4Db.entries q
            (some 2)).entries) ∧
      (∀ cursor,
        2 ≤ (cursorPage keyFeedEntries SortOrder.newest c4Db.entries c4Db.entries
          cursor (some 2)).entries.length →
        (∀ i, (cursorPage keyFeedEntries SortOrder.newest c4Db.entries c4Db.entries
            cursor (some 2)).next_id = some i →
          ∃ lastRow, (cursorPage keyFeedEntries SortOrder.newest c4Db.entries
            c4Db.entries cursor (some 2)).entries.getLast? = some lastRow ∧
            i = lastRow.id) ∧
        (∀ i, (cursorPage keyFeedEntries SortOrder.newest c4Db.entries c4Db.entries
            cursor (some 2)).prev_id = some i →
          ∃ firstRow, (cursorPage keyFeedEntries SortOrder.newest c4Db.entries
            c4Db.entries cursor (some 2)).entries.head? = some firstRow ∧
            i = firstRow.id) ∧
        ((∃ e ∈ c4Db.entries, ∃ lastRow,
            (cursorPage keyFeedEntries SortOrder.newest c4Db.entries c4Db.entries
              cursor (some 2)).entries.getLast? = some lastRow ∧
            ordLt keyFeedEntries SortOrder.newest lastRow e) →
          (cursorPage keyFeedEntries SortOrder.newest c4Db.entries c4Db.entries
            cursor (some 2)).next_id ≠ none) ∧
        ((∃ e ∈ c4Db.entries, ∃ firstRow,
            (cursorPage keyFeedEntries SortOrder.newest c4Db.entries c4Db.entries
              cursor (some 2)).entries.head? = some firstRow ∧
            ordLt keyFeedEntries SortOrder.newest e firstRow) →
          (cursorPage keyFeedEntries SortOrder.newest c4Db.entries c4Db.entries
            cursor (some 2)).prev_id ≠ none))) :=
  ⟨⟨by decide, List.Sublist.refl _⟩,
    cursor_pagination_roundtrip keyFeedEntries SortOrder.newest c4Db.entries
      c4Db.entries (some 2) (by decide) (List.Sublist.refl _)⟩

/-! ## get_feed (feed_loader/mod.rs lines 65-163)

The network, the robots gate, the XML parser and the favicon fetches are
external collaborators, bundled in a `LoaderEnv`; `get_feed` itself is
translated branch for branch — including the empty statement
`if feed_urls.is_empty() \x7b\x7d` of line 118, which has no effect. -/

inductive GetFeedError where
  | UnexpectedError (msg : String)
  | RobotsDeterminingUrlError
  | RobotsFetchError
  | RobotsParsingError
  | UnexpectedFeed
  | FetchFeedError
  | ParseFeedError
deriving Repr, DecidableEq

inductive GetFeedResult where
  | DiscoveredMultiple (feed_urls : List String)
  | Feed (feed : NewFeed) (entries : List NewEntry) (icon : Option NewIcon)
  | NotFound
  | NotAllowed
  | Unknown (status : Nat) (body : String)
deriving Repr, DecidableEq

structure LoaderEnv where
  robots : Except GetFeedError Bool := .ok true
  fetch : String → Except String HttpResponse
  parseFeed : List Nat → String → Except Unit (ParsedFeed × List NewEntry)
  discover : List Nat → String → Except String (List String × Option String)
  discoverFavicon : String → Option NewIcon := fun _ => none
  getFavicon : String → Option NewIcon := fun _ => none

/-- `fetch_feed(url)`: send the request through the shared client, then
classify the response. -/
def fetchFeedAt (env : LoaderEnv) (url : String) : Except String FeedFetchResult :=
  (env.fetch url).bind fetch_feed

def get_feed (env : LoaderEnv) (url : String) : Except GetFeedError GetFeedResult :=
  let url := if !strStartsWith url ("http") then ("https://") ++ url else url
  match env.robots with
  | .error e => .error e
  | .ok allowed =>
    if !allowed then .ok .NotAllowed else
    match fetchFeedAt env url with
    | .error e => .error (.UnexpectedError e)
    | .ok (.Feed bytes location) =>
      match env.parseFeed bytes url with
      | .error _ => .error .ParseFeedError
      | .ok (parsed_feed, entries) =>
        .ok (.Feed { title := parsed_feed.title, site_url := parsed_feed.site_url,
                     feed_url := url } entries
          (env.discoverFavicon location.origin))
    | .ok (.Html bytes location) =>
      match env.discover bytes (url_to_string location) with
      | .error e => .error (.UnexpectedError e)
      | .ok (feed_urls, maybe_favicon_url) =>
        match feed_urls with
        | [feed_url] =>
          match fetchFeedAt env feed_url with
          | .error e => .error (.UnexpectedError e)
          | .ok (.Feed bytes2 new_location) =>
            let new_origin := new_location.origin
            let icon := match maybe_favicon_url with
              | some favicon_url => env.getFavicon favicon_url
              | none =>
                if location.origin ≠ new_origin then env.discoverFavicon new_origin
                else none
            match env.parseFeed bytes2 feed_url with
            | .error _ => .error .ParseFeedError
            | .ok (parsed_feed, entries) =>
              .ok (.Feed { title := parsed_feed.title,
                           site_url := parsed_feed.site_url,
                           feed_url := feed_url } entries icon)
          | .ok _ => .error .UnexpectedFeed
        | _ => .ok (.DiscoveredMultiple feed_urls)
    | .ok .NotFound => .ok .NotFound
    | .ok (.Unknown status body) =>
      .error (.UnexpectedError
        (("unknown error fetching feed: ") ++ toString status ++ (": ") ++ body))

def c5HtmlResponse : HttpResponse :=
  { status := 200, content_type := some ("text/html"), bytes := [60],
    body_text := ("<html></html>"), location := ⟨("https://example.com"), ("/")⟩ }

/-- An environment in which `https://example.com/` serves an HTML page
whose head exposes no feed candidate at all. -/
def c5Env : LoaderEnv :=
  { fetch := fun _ => .ok c5HtmlResponse,
    parseFeed := fun _ _ => .error (),
    discover := fun _ _ => .ok ([], none) }

/-- Claim C5 (the failing input): an HTML page with zero feed candidates
makes `get_feed` return `DiscoveredMultiple []` — the empty statement at
line 118 dropped the intended `NotFound` return. -/
theorem get_feed_zero_candidates_not_notfound :
    get_feed c5Env ("https://example.com/") = .ok (.DiscoveredMultiple []) ∧
    get_feed c5Env ("https://example.com/") ≠ .ok .NotFound := by
  constructor
  · rfl
  · intro h
    rw [show get_feed c5Env ("https://example.com/") =
      .ok (.DiscoveredMultiple []) from rfl] at h
    simp at h

end Rss
